import Mathlib

/-!
# Verification of the Go package `set` (src/set.go)

A shallow embedding of the generic, lock-protected `Set[E]` type.

* `GoMap E` is Go's built-in `map[E]struct{}`: a finite collection of distinct keys.
* `RWMutex` is `sync.RWMutex` as seen by one thread of execution: a count of shared
  holders and a flag for the exclusive holder.  An acquisition that would wait for ever
  and a release of a lock that is not held do not return; both are `none`.
* `Set E` is the struct of `set.go`, a lock next to a map.
* `Heap E` is the store of allocated `Set` objects; a `Ptr` is a `*Set[E]`.
  Every method takes the heap and gives back `none` (the call does not return) or its
  result together with the new heap.  `defer` is run at the end of the body, last
  deferred first.
* The element type `E` carries a decidable equality, Go's `==` on a `comparable` type
  where it is reflexive and cannot fail (so no floating-point NaN key and no interface
  value of a type that cannot be hashed).
* A `Set` in the store was built by `New`, so its map is never the nil map.
* The namespace `Comparable` holds the same program without the last two restrictions:
  a key may be unequal to itself, hashing a key may panic, and a `Set` may be the zero
  value of the struct with a nil map.  The claims that depend on how such keys and such a
  set behave are settled there.
* The order in which `range` visits a map is the order of `keys`; `MembersBy` and the
  `...By` methods take that order as a parameter, one choice for each loop.
* The library call `fmt.Sprintf` is a parameter of `Set.String`.
-/

namespace GoSet

/-! ## The built-in map -/

/-- Go's `map[E]struct{}` for keys with a reflexive, total `==`: the keys present, each of
them once.  `Comparable.Map` is the map for keys of any `comparable` type. -/
structure GoMap (E : Type) where
  keys : List E
  nodup : keys.Nodup

namespace GoMap

variable {E : Type}

/-- The call `make(map[E]struct{})`. -/
def make : GoMap E := ⟨[], List.nodup_nil⟩

/-- The lookup `_, ok := m[v]`, for keys with a reflexive, total `==`. -/
def lookup [DecidableEq E] (m : GoMap E) (v : E) : Bool := decide (v ∈ m.keys)

/-- The assignment `m[v] = struct{}{}`, for keys with a reflexive, total `==` and a map
that is not nil. -/
def store [DecidableEq E] (m : GoMap E) (v : E) : GoMap E :=
  if h : v ∈ m.keys then m
  else ⟨m.keys ++ [v], List.Nodup.append m.nodup (List.nodup_singleton v)
    (by
      intro a ha hav
      rw [List.mem_singleton] at hav
      exact h (hav ▸ ha))⟩

/-- The call `delete(m, v)`, for keys with a reflexive, total `==`. -/
def delete [DecidableEq E] (m : GoMap E) (v : E) : GoMap E := ⟨m.keys.erase v, m.nodup.erase v⟩

/-- The call `len(m)`. -/
def len (m : GoMap E) : Nat := m.keys.length

/-- The keys in the order `for v := range m` visits them.  Go leaves the order open; the
order of `keys` stands for the one taken. -/
def range (m : GoMap E) : List E := m.keys

end GoMap

/-! ## The reader/writer lock -/

/-- State of a `sync.RWMutex`: how many shared holders, and whether held exclusively. -/
structure RWMutex where
  readers : Nat
  writer : Bool
deriving DecidableEq, Repr

namespace RWMutex

/-- The zero value of `sync.RWMutex`: an unlocked mutex. -/
def zero : RWMutex := ⟨0, false⟩

/-- Method `RLock`: waits while the lock is held exclusively. -/
def RLock (m : RWMutex) : Option RWMutex :=
  if m.writer then none else some ⟨m.readers + 1, m.writer⟩

/-- Method `RUnlock`: undoes one `RLock`; a fatal error if there is none to undo. -/
def RUnlock (m : RWMutex) : Option RWMutex :=
  if m.readers = 0 then none else some ⟨m.readers - 1, m.writer⟩

/-- Method `Lock`: waits while the lock is held in either mode. -/
def Lock (m : RWMutex) : Option RWMutex :=
  if m.writer ∨ m.readers ≠ 0 then none else some ⟨m.readers, true⟩

/-- Method `Unlock`: a fatal error if the lock is not held exclusively. -/
def Unlock (m : RWMutex) : Option RWMutex :=
  if m.writer then some ⟨m.readers, false⟩ else none

end RWMutex

/-! ## The `Set` struct and the store -/

/-- The struct `Set[E]` as `New` builds it, with a map that is not nil. -/
structure Set (E : Type) where
  lock : RWMutex
  values : GoMap E

/-- A `*Set[E]`: the index of the object in the store. -/
abbrev Ptr := Nat

/-- The allocated `Set` objects. -/
abbrev Heap (E : Type) := List (Set E)

variable {E : Type}

/-- Apply a lock operation to `s.lock`. -/
def onLock (f : RWMutex → Option RWMutex) (s : Ptr) (h : Heap E) : Option (Heap E) := do
  let S ← h[s]?
  let l ← f S.lock
  pure (h.set s { S with lock := l })

/-- Read the field `s.values`. -/
def getValues (s : Ptr) (h : Heap E) : Option (GoMap E) := (h[s]?).map (fun S => S.values)

/-- Write the field `s.values`. -/
def setValues (s : Ptr) (m : GoMap E) (h : Heap E) : Option (Heap E) := do
  let S ← h[s]?
  pure (h.set s { S with values := m })

/-- The loop `for _, v := range xs { body }` over a slice. -/
def forRange (xs : List E) (body : E → Heap E → Option (Heap E)) (h : Heap E) :
    Option (Heap E) :=
  match xs with
  | [] => some h
  | x :: rest => (body x h).bind (forRange rest body)

/-! ## The functions of `set.go` -/

/-- Function `New` creates a new Set (set.go, lines 29-37). -/
def New [DecidableEq E] (vals : List E) (h : Heap E) : Ptr × Heap E :=
  let s : Set E := { lock := RWMutex.zero, values := GoMap.make }
  let s := vals.foldl (fun s v => { s with values := s.values.store v }) s
  (h.length, h ++ [s])

/-- Method `Add` puts a new value into a Set (set.go, lines 40-46). -/
def Add [DecidableEq E] (s : Ptr) (vals : List E) (h : Heap E) : Option (Heap E) := do
  let h ← onLock RWMutex.Lock s h
  let h ← forRange vals (fun v h => do
    let m ← getValues s h
    setValues s (m.store v) h) h
  onLock RWMutex.Unlock s h

/-- Method `Clear` removes all values from a Set (set.go, lines 49-53). -/
def Clear (s : Ptr) (h : Heap E) : Option (Heap E) := do
  let h ← onLock RWMutex.Lock s h
  let h ← setValues s GoMap.make h
  onLock RWMutex.Unlock s h

/-- Method `Contains` checks if a value is in the Set (set.go, lines 56-61). -/
def Contains [DecidableEq E] (s : Ptr) (v : E) (h : Heap E) : Option (Bool × Heap E) := do
  let h ← onLock RWMutex.RLock s h
  let m ← getValues s h
  let ok := m.lookup v
  let h ← onLock RWMutex.RUnlock s h
  pure (ok, h)

/-- Method `Delete` removes value(s) from a Set (set.go, lines 64-70). -/
def Delete [DecidableEq E] (s : Ptr) (vals : List E) (h : Heap E) : Option (Heap E) := do
  let h ← onLock RWMutex.Lock s h
  let h ← forRange vals (fun v h => do
    let m ← getValues s h
    setValues s (m.delete v) h) h
  onLock RWMutex.Unlock s h

/-- Method `Empty` returns true if the Set is empty (set.go, lines 97-101). -/
def Empty (s : Ptr) (h : Heap E) : Option (Bool × Heap E) := do
  let h ← onLock RWMutex.RLock s h
  let m ← getValues s h
  let r := decide (m.len = 0)
  let h ← onLock RWMutex.RUnlock s h
  pure (r, h)

/-- Method `Members` returns a slice of the values in a Set (set.go, lines 119-127). -/
def Members (s : Ptr) (h : Heap E) : Option (List E × Heap E) := do
  let h ← onLock RWMutex.RLock s h
  let m ← getValues s h
  let result := m.range.foldl (fun result v => result ++ [v]) []
  let h ← onLock RWMutex.RUnlock s h
  pure (result, h)

/-- Method `Size` returns the number of values in a Set (set.go, lines 130-134). -/
def Size (s : Ptr) (h : Heap E) : Option (Nat × Heap E) := do
  let h ← onLock RWMutex.RLock s h
  let m ← getValues s h
  let r := m.len
  let h ← onLock RWMutex.RUnlock s h
  pure (r, h)

/-- Method `Difference` returns the values that are in `s` but not in `s2` (set.go, lines 73-85). -/
def Difference [DecidableEq E] (s s2 : Ptr) (h : Heap E) : Option (Ptr × Heap E) := do
  let h ← onLock RWMutex.RLock s h
  let h ← onLock RWMutex.RLock s2 h
  let (result, h) := New [] h
  let (ms, h) ← Members s h
  let h ← forRange ms (fun v h => do
    let (c, h) ← Contains s2 v h
    if !c then Add result [v] h else pure h) h
  let h ← onLock RWMutex.RUnlock s2 h
  let h ← onLock RWMutex.RUnlock s h
  pure (result, h)

/-- Method `Intersection` returns the logical intersection of 2 Sets (set.go, lines 104-116). -/
def Intersection [DecidableEq E] (s s2 : Ptr) (h : Heap E) : Option (Ptr × Heap E) := do
  let h ← onLock RWMutex.RLock s h
  let h ← onLock RWMutex.RLock s2 h
  let (result, h) := New [] h
  let (ms, h) ← Members s h
  let h ← forRange ms (fun v h => do
    let (c, h) ← Contains s2 v h
    if c then Add result [v] h else pure h) h
  let h ← onLock RWMutex.RUnlock s2 h
  let h ← onLock RWMutex.RUnlock s h
  pure (result, h)

/-- Method `Disjoint` returns true if the intersection of `s` with `s2` is empty
(set.go, lines 88-94). -/
def Disjoint [DecidableEq E] (s s2 : Ptr) (h : Heap E) : Option (Bool × Heap E) := do
  let h ← onLock RWMutex.RLock s h
  let h ← onLock RWMutex.RLock s2 h
  let (i, h) ← Intersection s s2 h
  let (r, h) ← Empty i h
  let h ← onLock RWMutex.RUnlock s2 h
  let h ← onLock RWMutex.RUnlock s h
  pure (r, h)

/-- Method `Union` returns the logical union of 2 Sets (set.go, lines 144-152). -/
def Union [DecidableEq E] (s s2 : Ptr) (h : Heap E) : Option (Ptr × Heap E) := do
  let h ← onLock RWMutex.RLock s h
  let h ← onLock RWMutex.RLock s2 h
  let (ms, h) ← Members s h
  let (result, h) := New ms h
  let (ms2, h) ← Members s2 h
  let h ← Add result ms2 h
  let h ← onLock RWMutex.RUnlock s2 h
  let h ← onLock RWMutex.RUnlock s h
  pure (result, h)

/-- Method `String` returns a string representation of the Set members (set.go, lines
137-141).  The formatting `fmt.Sprintf("%v", ·)` of a slice belongs to the Go library and
is the parameter `sprintf`. -/
def Set.String (sprintf : List E → String) (s : Ptr) (h : Heap E) :
    Option (String × Heap E) := do
  let h ← onLock RWMutex.RLock s h
  let (ms, h) ← Members s h
  let r := sprintf ms
  let h ← onLock RWMutex.RUnlock s h
  pure (r, h)

/-! ## The order of `range` made explicit

Go leaves open in which order `for v := range s.values` visits the keys, and the order may
change from one loop to the next.  The definitions below are `Members` and its four callers
once more, with the order of each `range` loop as a parameter: the loop visits the keys in
the order `ord` puts them.  With `ord = id` they are the definitions above. -/

/-- Method `Members` (set.go, lines 119-127), the `range` loop visiting the keys in the
order `ord` puts them. -/
def MembersBy (ord : List E → List E) (s : Ptr) (h : Heap E) : Option (List E × Heap E) := do
  let h ← onLock RWMutex.RLock s h
  let m ← getValues s h
  let result := (ord m.range).foldl (fun result v => result ++ [v]) []
  let h ← onLock RWMutex.RUnlock s h
  pure (result, h)

/-- Method `Difference` (set.go, lines 73-85), its call of `Members` ranging in the order
`ord`. -/
def DifferenceBy [DecidableEq E] (ord : List E → List E) (s s2 : Ptr) (h : Heap E) :
    Option (Ptr × Heap E) := do
  let h ← onLock RWMutex.RLock s h
  let h ← onLock RWMutex.RLock s2 h
  let (result, h) := New [] h
  let (ms, h) ← MembersBy ord s h
  let h ← forRange ms (fun v h => do
    let (c, h) ← Contains s2 v h
    if !c then Add result [v] h else pure h) h
  let h ← onLock RWMutex.RUnlock s2 h
  let h ← onLock RWMutex.RUnlock s h
  pure (result, h)

/-- Method `Intersection` (set.go, lines 104-116), its call of `Members` ranging in the
order `ord`. -/
def IntersectionBy [DecidableEq E] (ord : List E → List E) (s s2 : Ptr) (h : Heap E) :
    Option (Ptr × Heap E) := do
  let h ← onLock RWMutex.RLock s h
  let h ← onLock RWMutex.RLock s2 h
  let (result, h) := New [] h
  let (ms, h) ← MembersBy ord s h
  let h ← forRange ms (fun v h => do
    let (c, h) ← Contains s2 v h
    if c then Add result [v] h else pure h) h
  let h ← onLock RWMutex.RUnlock s2 h
  let h ← onLock RWMutex.RUnlock s h
  pure (result, h)

/-- Method `Disjoint` (set.go, lines 88-94), the `Members` call of its `Intersection`
ranging in the order `ord`. -/
def DisjointBy [DecidableEq E] (ord : List E → List E) (s s2 : Ptr) (h : Heap E) :
    Option (Bool × Heap E) := do
  let h ← onLock RWMutex.RLock s h
  let h ← onLock RWMutex.RLock s2 h
  let (i, h) ← IntersectionBy ord s s2 h
  let (r, h) ← Empty i h
  let h ← onLock RWMutex.RUnlock s2 h
  let h ← onLock RWMutex.RUnlock s h
  pure (r, h)

/-- Method `Union` (set.go, lines 144-152), its first call of `Members` ranging in the
order `ord` and its second in the order `ord2`. -/
def UnionBy [DecidableEq E] (ord ord2 : List E → List E) (s s2 : Ptr) (h : Heap E) :
    Option (Ptr × Heap E) := do
  let h ← onLock RWMutex.RLock s h
  let h ← onLock RWMutex.RLock s2 h
  let (ms, h) ← MembersBy ord s h
  let (result, h) := New ms h
  let (ms2, h) ← MembersBy ord2 s2 h
  let h ← Add result ms2 h
  let h ← onLock RWMutex.RUnlock s2 h
  let h ← onLock RWMutex.RUnlock s h
  pure (result, h)

/-! ## Keys of any `comparable` type

The definitions above take the element type with a decidable equality that is Go's `==`.
For a `comparable` type in general `==` is less regular, and the definitions below are the
same program over such a type: a value may be unequal to itself (a floating-point NaN),
hashing a value may fail with a run-time panic (an interface value whose dynamic type
cannot be compared), and a `Set` may be the zero value of the struct, whose map is nil.
Two values that are equal to themselves are `==` exactly when they are the same value. -/

/-- What the Go runtime does with a value of the `comparable` type `E` as a map key. -/
class Comparable (E : Type) where
  /-- Hashing the value succeeds.  It fails, with a run-time panic, for an interface value
  whose dynamic type cannot be compared (a slice, a map, a function). -/
  hashable : E → Bool
  /-- The value is equal to itself under `==`.  A floating-point NaN is not. -/
  selfEq : E → Bool

namespace Comparable

variable {E : Type}

/-- The keys of a map after the assignment `m[v] = struct{}{}`: a key equal to a stored one
is not stored again, and a key that is not equal to itself is stored once more each time. -/
def insertKey [DecidableEq E] [Comparable E] (ks : List E) (v : E) : List E :=
  if selfEq v = true ∧ v ∈ ks then ks else ks ++ [v]

/-- The keys of a map after `delete(m, v)`: a key that is not equal to itself is never
found, so nothing is removed for it. -/
def removeKey [DecidableEq E] [Comparable E] (ks : List E) (v : E) : List E :=
  if selfEq v = true then ks.erase v else ks

/-- A non-nil `map[E]struct{}`: the stored keys.  A key equal to itself is stored once;
every stored key was hashed when it was stored. -/
structure Map (E : Type) [Comparable E] where
  keys : List E
  nodup : (keys.filter selfEq).Nodup
  hashed : ∀ k ∈ keys, hashable k = true

/-- The call `make(map[E]struct{})`. -/
def make [Comparable E] : Map E := ⟨[], List.nodup_nil, fun _ hk => nomatch hk⟩

/-- The lookup `_, ok := m[v]` in a map that may be nil (`none`).  Hashing `v` comes
first and may panic. -/
def lookup [DecidableEq E] [Comparable E] (m : Option (Map E)) (v : E) : Option Bool :=
  if hashable v = true then
    match m with
    | none => some false
    | some m => some (selfEq v && decide (v ∈ m.keys))
  else none

/-- The assignment `m[v] = struct{}{}` in a map that may be nil (`none`): a panic for the
nil map and for a key that cannot be hashed. -/
def store [DecidableEq E] [Comparable E] (m : Option (Map E)) (v : E) : Option (Map E) :=
  match m with
  | none => none
  | some m =>
    if hv : hashable v = true then
      some ⟨insertKey m.keys v,
        (by
          unfold insertKey
          split
          · exact m.nodup
          · rename_i hin
            rw [List.filter_append]
            by_cases hs : selfEq v = true
            · have hnot : v ∉ m.keys := fun hmem => hin ⟨hs, hmem⟩
              have hf : List.filter selfEq [v] = [v] := by simp [hs]
              rw [hf]
              refine List.Nodup.append m.nodup (List.nodup_singleton v) ?_
              intro a ha hav
              rw [List.mem_singleton] at hav
              exact hnot (hav ▸ (List.mem_filter.mp ha).1)
            · have hf : List.filter selfEq [v] = [] := by simp [hs]
              rw [hf, List.append_nil]
              exact m.nodup),
        (by
          intro k hk
          unfold insertKey at hk
          split at hk
          · exact m.hashed k hk
          · rcases List.mem_append.mp hk with hk1 | hk1
            · exact m.hashed k hk1
            · rw [List.mem_singleton] at hk1
              rw [hk1]
              exact hv)⟩
    else none

/-- The call `delete(m, v)` on a map that may be nil (`none`), giving the map after it.
Hashing `v` comes first and may panic; on the nil map nothing else happens. -/
def delete [DecidableEq E] [Comparable E] (m : Option (Map E)) (v : E) :
    Option (Option (Map E)) :=
  if hashable v = true then
    match m with
    | none => some none
    | some m =>
      some (some ⟨removeKey m.keys v,
        (by
          unfold removeKey
          split
          · exact List.Nodup.sublist (List.Sublist.filter _ (List.erase_sublist v m.keys))
              m.nodup
          · exact m.nodup),
        (by
          intro k hk
          unfold removeKey at hk
          split at hk
          · exact m.hashed k (List.mem_of_mem_erase hk)
          · exact m.hashed k hk)⟩)
  else none

/-- The call `len(m)`; the nil map has length 0. -/
def len [Comparable E] (m : Option (Map E)) : Nat :=
  match m with
  | none => 0
  | some m => m.keys.length

/-- The keys in the order `for v := range m` visits them; the nil map has none. -/
def range [Comparable E] (m : Option (Map E)) : List E :=
  match m with
  | none => []
  | some m => m.keys

/-- The struct `Set[E]`; its zero value has an unlocked lock and the nil map. -/
structure Set (E : Type) [Comparable E] where
  lock : RWMutex
  values : Option (Map E)

/-- The allocated `Set` objects. -/
abbrev Heap (E : Type) [Comparable E] := List (Set E)

/-- Apply a lock operation to `s.lock`. -/
def onLock [Comparable E] (f : RWMutex → Option RWMutex) (s : Ptr) (h : Heap E) :
    Option (Heap E) := do
  let S ← h[s]?
  let l ← f S.lock
  pure (h.set s { S with lock := l })

/-- Read the field `s.values`. -/
def getValues [Comparable E] (s : Ptr) (h : Heap E) : Option (Option (Map E)) :=
  (h[s]?).map (fun S => S.values)

/-- Write the field `s.values`. -/
def setValues [Comparable E] (s : Ptr) (m : Option (Map E)) (h : Heap E) :
    Option (Heap E) := do
  let S ← h[s]?
  pure (h.set s { S with values := m })

/-- The loop `for _, v := range xs { body }` over a slice. -/
def forRange [Comparable E] (xs : List E) (body : E → Heap E → Option (Heap E))
    (h : Heap E) : Option (Heap E) :=
  match xs with
  | [] => some h
  | x :: rest => (body x h).bind (forRange rest body)

/-- The loop `for _, v := range vals { s.values[v] = struct{}{} }` of `New`, on the struct
`s` that is still a local variable. -/
def storeAll [DecidableEq E] [Comparable E] (vals : List E) (s : Set E) : Option (Set E) :=
  match vals with
  | [] => some s
  | v :: rest => (store s.values v).bind fun m => storeAll rest { s with values := some m }

/-- Function `New` creates a new Set (set.go, lines 29-37). -/
def New [DecidableEq E] [Comparable E] (vals : List E) (h : Heap E) :
    Option (Ptr × Heap E) := do
  let s : Set E := { lock := RWMutex.zero, values := some make }
  let s ← storeAll vals s
  pure (h.length, h ++ [s])

/-- Method `Add` puts a new value into a Set (set.go, lines 40-46). -/
def Add [DecidableEq E] [Comparable E] (s : Ptr) (vals : List E) (h : Heap E) :
    Option (Heap E) := do
  let h ← onLock RWMutex.Lock s h
  let h ← forRange vals (fun v h => do
    let m ← getValues s h
    let m ← store m v
    setValues s (some m) h) h
  onLock RWMutex.Unlock s h

/-- Method `Clear` removes all values from a Set (set.go, lines 49-53). -/
def Clear [Comparable E] (s : Ptr) (h : Heap E) : Option (Heap E) := do
  let h ← onLock RWMutex.Lock s h
  let h ← setValues s (some make) h
  onLock RWMutex.Unlock s h

/-- Method `Contains` checks if a value is in the Set (set.go, lines 56-61). -/
def Contains [DecidableEq E] [Comparable E] (s : Ptr) (v : E) (h : Heap E) :
    Option (Bool × Heap E) := do
  let h ← onLock RWMutex.RLock s h
  let m ← getValues s h
  let ok ← lookup m v
  let h ← onLock RWMutex.RUnlock s h
  pure (ok, h)

/-- Method `Delete` removes value(s) from a Set (set.go, lines 64-70). -/
def Delete [DecidableEq E] [Comparable E] (s : Ptr) (vals : List E) (h : Heap E) :
    Option (Heap E) := do
  let h ← onLock RWMutex.Lock s h
  let h ← forRange vals (fun v h => do
    let m ← getValues s h
    let m ← delete m v
    setValues s m h) h
  onLock RWMutex.Unlock s h

/-- Method `Empty` returns true if the Set is empty (set.go, lines 97-101). -/
def Empty [Comparable E] (s : Ptr) (h : Heap E) : Option (Bool × Heap E) := do
  let h ← onLock RWMutex.RLock s h
  let m ← getValues s h
  let r := decide (len m = 0)
  let h ← onLock RWMutex.RUnlock s h
  pure (r, h)

/-- Method `Members` returns a slice of the values in a Set (set.go, lines 119-127). -/
def Members [Comparable E] (s : Ptr) (h : Heap E) : Option (List E × Heap E) := do
  let h ← onLock RWMutex.RLock s h
  let m ← getValues s h
  let result := (range m).foldl (fun result v => result ++ [v]) []
  let h ← onLock RWMutex.RUnlock s h
  pure (result, h)

/-- Method `Size` returns the number of values in a Set (set.go, lines 130-134). -/
def Size [Comparable E] (s : Ptr) (h : Heap E) : Option (Nat × Heap E) := do
  let h ← onLock RWMutex.RLock s h
  let m ← getValues s h
  let r := len m
  let h ← onLock RWMutex.RUnlock s h
  pure (r, h)

/-- Method `String` returns a string representation of the Set members (set.go, lines
137-141); `sprintf` is the library call `fmt.Sprintf("%v", ·)`. -/
def Set.String [Comparable E] (sprintf : List E → String) (s : Ptr) (h : Heap E) :
    Option (String × Heap E) := do
  let h ← onLock RWMutex.RLock s h
  let (ms, h) ← Members s h
  let r := sprintf ms
  let h ← onLock RWMutex.RUnlock s h
  pure (r, h)

/-- Method `Difference` returns the values that are in `s` but not in `s2` (set.go, lines
73-85). -/
def Difference [DecidableEq E] [Comparable E] (s s2 : Ptr) (h : Heap E) :
    Option (Ptr × Heap E) := do
  let h ← onLock RWMutex.RLock s h
  let h ← onLock RWMutex.RLock s2 h
  let (result, h) ← New [] h
  let (ms, h) ← Members s h
  let h ← forRange ms (fun v h => do
    let (c, h) ← Contains s2 v h
    if !c then Add result [v] h else pure h) h
  let h ← onLock RWMutex.RUnlock s2 h
  let h ← onLock RWMutex.RUnlock s h
  pure (result, h)

/-- Method `Intersection` returns the logical intersection of 2 Sets (set.go, lines
104-116). -/
def Intersection [DecidableEq E] [Comparable E] (s s2 : Ptr) (h : Heap E) :
    Option (Ptr × Heap E) := do
  let h ← onLock RWMutex.RLock s h
  let h ← onLock RWMutex.RLock s2 h
  let (result, h) ← New [] h
  let (ms, h) ← Members s h
  let h ← forRange ms (fun v h => do
    let (c, h) ← Contains s2 v h
    if c then Add result [v] h else pure h) h
  let h ← onLock RWMutex.RUnlock s2 h
  let h ← onLock RWMutex.RUnlock s h
  pure (result, h)

/-- Method `Disjoint` returns true if the intersection of `s` with `s2` is empty
(set.go, lines 88-94). -/
def Disjoint [DecidableEq E] [Comparable E] (s s2 : Ptr) (h : Heap E) :
    Option (Bool × Heap E) := do
  let h ← onLock RWMutex.RLock s h
  let h ← onLock RWMutex.RLock s2 h
  let (i, h) ← Intersection s s2 h
  let (r, h) ← Empty i h
  let h ← onLock RWMutex.RUnlock s2 h
  let h ← onLock RWMutex.RUnlock s h
  pure (r, h)

/-- Method `Union` returns the logical union of 2 Sets (set.go, lines 144-152). -/
def Union [DecidableEq E] [Comparable E] (s s2 : Ptr) (h : Heap E) :
    Option (Ptr × Heap E) := do
  let h ← onLock RWMutex.RLock s h
  let h ← onLock RWMutex.RLock s2 h
  let (ms, h) ← Members s h
  let (result, h) ← New ms h
  let (ms2, h) ← Members s2 h
  let h ← Add result ms2 h
  let h ← onLock RWMutex.RUnlock s2 h
  let h ← onLock RWMutex.RUnlock s h
  pure (result, h)

/-- The `float64` values as map keys: a number, equal to itself, or a NaN, which is not. -/
inductive Float64 where
  | num (n : Int)
  | nan
deriving DecidableEq, Repr

instance : Comparable Float64 where
  hashable _ := true
  selfEq x := decide (x ≠ Float64.nan)

/-- Values of the interface type `any` as map keys: an `int`, or a slice `[]int`, a value
of a type that cannot be hashed. -/
inductive Any where
  | int (n : Int)
  | slice (xs : List Int)
deriving DecidableEq, Repr

instance : Comparable Any where
  hashable x := match x with
    | Any.int _ => true
    | Any.slice _ => false
  selfEq _ := true

/-- The `int` values as map keys: every one can be hashed and is equal to itself. -/
instance : Comparable Int where
  hashable _ := true
  selfEq _ := true

end Comparable

/-! ## The map operations -/

namespace GoMap

theorem ext_keys {m n : GoMap E} (h : m.keys = n.keys) : m = n := by
  cases m; cases n; cases h; rfl

theorem lookup_make [DecidableEq E] (x : E) : (make : GoMap E).lookup x = false := by
  simp [lookup, make]

theorem lookup_store [DecidableEq E] (m : GoMap E) (v x : E) :
    (m.store v).lookup x = (m.lookup x || decide (x = v)) := by
  unfold store lookup
  by_cases hv : v ∈ m.keys
  · by_cases hx : x = v
    · subst hx; simp [hv]
    · simp [hv, hx]
  · simp [hv]

theorem lookup_delete [DecidableEq E] (m : GoMap E) (v x : E) :
    (m.delete v).lookup x = (m.lookup x && !decide (x = v)) := by
  unfold delete lookup
  by_cases hx : x = v
  · subst hx; simp [m.nodup.mem_erase_iff]
  · simp [m.nodup.mem_erase_iff, hx]

theorem store_eq_self [DecidableEq E] (m : GoMap E) (v : E) (h : m.lookup v = true) :
    m.store v = m := by
  have hv : v ∈ m.keys := by simpa [lookup] using h
  simp [store, hv]

theorem delete_eq_self [DecidableEq E] (m : GoMap E) (v : E) (h : m.lookup v = false) :
    m.delete v = m := by
  have hv : v ∉ m.keys := by simpa [lookup] using h
  exact ext_keys (List.erase_of_not_mem hv)

theorem lookup_foldl_store [DecidableEq E] (xs : List E) (m : GoMap E) (x : E) :
    (xs.foldl store m).lookup x = (m.lookup x || decide (x ∈ xs)) := by
  induction xs generalizing m with
  | nil => simp
  | cons v rest ih =>
    rw [List.foldl_cons, ih, lookup_store]
    by_cases hx : x = v <;> simp [hx, Bool.or_assoc]

theorem lookup_foldl_delete [DecidableEq E] (xs : List E) (m : GoMap E) (x : E) :
    (xs.foldl delete m).lookup x = (m.lookup x && !decide (x ∈ xs)) := by
  induction xs generalizing m with
  | nil => simp
  | cons v rest ih =>
    rw [List.foldl_cons, ih, lookup_delete]
    by_cases hx : x = v <;> simp [hx, Bool.and_assoc]

end GoMap

/-! ## The store, the lock and the single-set methods -/

theorem lt_of_getElem? {h : Heap E} {s : Ptr} {S : Set E} (hs : h[s]? = some S) :
    s < h.length := by
  obtain ⟨hlt, -⟩ := List.getElem?_eq_some.mp hs
  exact hlt

theorem set_self {h : Heap E} {s : Ptr} {S : Set E} (hs : h[s]? = some S) : h.set s S = h := by
  apply List.ext_getElem?
  intro i
  by_cases hi : s = i
  · subst hi
    rw [List.getElem?_set_self (lt_of_getElem? hs), hs]
  · rw [List.getElem?_set_ne hi]

theorem getElem?_set_same {h : Heap E} {s : Ptr} {S : Set E} (T : Set E) (hs : h[s]? = some S) :
    (h.set s T)[s]? = some T :=
  List.getElem?_set_self (lt_of_getElem? hs)

theorem onLock_eq {f : RWMutex → Option RWMutex} {h : Heap E} {s : Ptr} {S : Set E}
    {l : RWMutex} (hs : h[s]? = some S) (hf : f S.lock = some l) :
    onLock f s h = some (h.set s { S with lock := l }) := by
  simp [onLock, hs, hf]

theorem getValues_eq {h : Heap E} {s : Ptr} {S : Set E} (hs : h[s]? = some S) :
    getValues s h = some S.values := by
  simp [getValues, hs]

theorem setValues_eq {h : Heap E} {s : Ptr} {S : Set E} (m : GoMap E) (hs : h[s]? = some S) :
    setValues s m h = some (h.set s { S with values := m }) := by
  simp [setValues, hs]

theorem getElem?_set_other {h : Heap E} {s p : Ptr} {S T U : Set E} (hs : h[s]? = some S)
    (hp : h[p]? = some T) (hv : U.values = S.values) (hw : U.lock.writer = S.lock.writer) :
    ∃ T1, (h.set s U)[p]? = some T1 ∧ T1.values = T.values ∧
      T1.lock.writer = T.lock.writer := by
  by_cases hsp : s = p
  · subst hsp
    rw [hs] at hp
    cases hp
    exact ⟨U, getElem?_set_same U hs, hv, hw⟩
  · exact ⟨T, by rw [List.getElem?_set_ne hsp, hp], rfl, rfl⟩

theorem rlock_eq {h : Heap E} {s : Ptr} {S : Set E} (hs : h[s]? = some S)
    (hw : S.lock.writer = false) :
    onLock RWMutex.RLock s h
      = some (h.set s ⟨⟨S.lock.readers + 1, S.lock.writer⟩, S.values⟩) := by
  apply onLock_eq hs
  simp [RWMutex.RLock, hw]

theorem runlock_eq {h : Heap E} {s : Ptr} {S : Set E} (hs : h[s]? = some S) (t : Heap E) :
    onLock RWMutex.RUnlock s (h.set s ⟨⟨S.lock.readers + 1, S.lock.writer⟩, S.values⟩ ++ t)
      = some (h ++ t) := by
  have hlt := lt_of_getElem? hs
  have hget : (h.set s ⟨⟨S.lock.readers + 1, S.lock.writer⟩, S.values⟩ ++ t)[s]?
      = some ⟨⟨S.lock.readers + 1, S.lock.writer⟩, S.values⟩ := by
    rw [List.getElem?_append_left (by simpa using hlt)]
    exact getElem?_set_same _ hs
  rw [onLock_eq hget (l := S.lock) (by simp [RWMutex.RUnlock])]
  rw [List.set_append_left _ _ (by simpa using hlt), List.set_set]
  congr 2
  exact set_self hs

theorem foldl_append_singleton (xs acc : List E) :
    xs.foldl (fun result v => result ++ [v]) acc = acc ++ xs := by
  induction xs generalizing acc with
  | nil => simp
  | cons v rest ih => rw [List.foldl_cons, ih]; simp

section read
variable {h : Heap E} {s : Ptr} {S : Set E}

theorem Contains_eq [DecidableEq E] (hs : h[s]? = some S) (hw : S.lock.writer = false)
    (v : E) :
    Contains s v h = some (S.values.lookup v, h) := by
  have hu := runlock_eq hs []
  simp only [List.append_nil] at hu
  simp [Contains, rlock_eq hs hw, getValues_eq (getElem?_set_same _ hs), hu]

theorem Members_eq (hs : h[s]? = some S) (hw : S.lock.writer = false) :
    Members s h = some (S.values.keys, h) := by
  have hu := runlock_eq hs []
  simp only [List.append_nil] at hu
  simp [Members, rlock_eq hs hw, getValues_eq (getElem?_set_same _ hs), hu,
    foldl_append_singleton, GoMap.range]

theorem Size_eq (hs : h[s]? = some S) (hw : S.lock.writer = false) :
    Size s h = some (S.values.keys.length, h) := by
  have hu := runlock_eq hs []
  simp only [List.append_nil] at hu
  simp [Size, rlock_eq hs hw, getValues_eq (getElem?_set_same _ hs), hu, GoMap.len]

theorem Empty_eq (hs : h[s]? = some S) (hw : S.lock.writer = false) :
    Empty s h = some (decide (S.values.keys.length = 0), h) := by
  have hu := runlock_eq hs []
  simp only [List.append_nil] at hu
  simp [Empty, rlock_eq hs hw, getValues_eq (getElem?_set_same _ hs), hu, GoMap.len]

end read

section write

theorem foldl_store_struct [DecidableEq E] (vals : List E) (S : Set E) :
    vals.foldl (fun s v => { s with values := s.values.store v }) S
      = ⟨S.lock, vals.foldl GoMap.store S.values⟩ := by
  induction vals generalizing S with
  | nil => rfl
  | cons v rest ih => rw [List.foldl_cons, ih]; rfl

theorem New_eq [DecidableEq E] (vals : List E) (h : Heap E) :
    New vals h = (h.length, h ++ [⟨RWMutex.zero, vals.foldl GoMap.store GoMap.make⟩]) := by
  simp [New, foldl_store_struct]

/-- The loop of `Add` and `Delete`: each pass rewrites the map of `s` and nothing else. -/
theorem forRange_values (f : GoMap E → E → GoMap E) (s : Ptr) (vals : List E) :
    ∀ (h : Heap E) (S : Set E), h[s]? = some S →
      forRange vals (fun v h => (getValues s h).bind fun m => setValues s (f m v) h) h
        = some (h.set s ⟨S.lock, vals.foldl f S.values⟩) := by
  induction vals with
  | nil => intro h S hs; simp [forRange, set_self hs]
  | cons v rest ih =>
    intro h S hs
    rw [forRange]
    simp only [getValues_eq hs, setValues_eq _ hs, Option.some_bind]
    rw [ih _ _ (getElem?_set_same _ hs), List.set_set]
    rfl

theorem Add_eq [DecidableEq E] {h : Heap E} {s : Ptr} {S : Set E}
    (hs : h[s]? = some S) (hl : S.lock = RWMutex.zero) (vals : List E) :
    Add s vals h = some (h.set s ⟨S.lock, vals.foldl GoMap.store S.values⟩) := by
  have h1 : onLock RWMutex.Lock s h = some (h.set s ⟨⟨0, true⟩, S.values⟩) :=
    onLock_eq hs (by simp [RWMutex.Lock, hl, RWMutex.zero])
  have h2 := forRange_values GoMap.store s vals _ _
    (getElem?_set_same ⟨⟨0, true⟩, S.values⟩ hs)
  simp only [List.set_set] at h2
  have h3 : onLock RWMutex.Unlock s (h.set s ⟨⟨0, true⟩, vals.foldl GoMap.store S.values⟩)
      = some (h.set s ⟨S.lock, vals.foldl GoMap.store S.values⟩) := by
    rw [onLock_eq (getElem?_set_same _ hs) (l := ⟨0, false⟩) (by simp [RWMutex.Unlock]),
      List.set_set, hl]
    rfl
  simp only [Add, h1, Option.bind_eq_bind, Option.some_bind]
  rw [h2]
  exact h3

theorem Delete_eq [DecidableEq E] {h : Heap E} {s : Ptr} {S : Set E}
    (hs : h[s]? = some S) (hl : S.lock = RWMutex.zero) (vals : List E) :
    Delete s vals h = some (h.set s ⟨S.lock, vals.foldl GoMap.delete S.values⟩) := by
  have h1 : onLock RWMutex.Lock s h = some (h.set s ⟨⟨0, true⟩, S.values⟩) :=
    onLock_eq hs (by simp [RWMutex.Lock, hl, RWMutex.zero])
  have h2 := forRange_values GoMap.delete s vals _ _
    (getElem?_set_same ⟨⟨0, true⟩, S.values⟩ hs)
  simp only [List.set_set] at h2
  have h3 : onLock RWMutex.Unlock s (h.set s ⟨⟨0, true⟩, vals.foldl GoMap.delete S.values⟩)
      = some (h.set s ⟨S.lock, vals.foldl GoMap.delete S.values⟩) := by
    rw [onLock_eq (getElem?_set_same _ hs) (l := ⟨0, false⟩) (by simp [RWMutex.Unlock]),
      List.set_set, hl]
    rfl
  simp only [Delete, h1, Option.bind_eq_bind, Option.some_bind]
  rw [h2]
  exact h3

theorem Clear_eq {h : Heap E} {s : Ptr} {S : Set E} (hs : h[s]? = some S)
    (hl : S.lock = RWMutex.zero) :
    Clear s h = some (h.set s ⟨S.lock, GoMap.make⟩) := by
  have h1 : onLock RWMutex.Lock s h = some (h.set s ⟨⟨0, true⟩, S.values⟩) :=
    onLock_eq hs (by simp [RWMutex.Lock, hl, RWMutex.zero])
  have h2 := setValues_eq (GoMap.make) (getElem?_set_same ⟨⟨0, true⟩, S.values⟩ hs)
  rw [List.set_set] at h2
  simp only [Clear, h1, h2, Option.bind_eq_bind, Option.some_bind]
  rw [onLock_eq (getElem?_set_same _ hs) (l := ⟨0, false⟩) (by simp [RWMutex.Unlock]),
      List.set_set, hl]
  rfl

end write

/-! ## The two-set methods -/

section composite

/-- The two shared acquisitions that open every two-set method succeed, leave both maps
as they were, and the two deferred releases restore the store, also after more objects
were allocated. -/
theorem two_rlocks {h : Heap E} {a b : Ptr} {A B : Set E} (ha : h[a]? = some A)
    (hb : h[b]? = some B) (hwa : A.lock.writer = false) (hwb : B.lock.writer = false) :
    ∃ (h1 h2 : Heap E) (A2 B2 : Set E),
      onLock RWMutex.RLock a h = some h1 ∧ onLock RWMutex.RLock b h1 = some h2 ∧
      h2.length = h.length ∧
      h2[a]? = some A2 ∧ A2.values = A.values ∧ A2.lock.writer = false ∧
      h2[b]? = some B2 ∧ B2.values = B.values ∧ B2.lock.writer = false ∧
      ∀ t : Heap E, onLock RWMutex.RUnlock b (h2 ++ t) = some (h1 ++ t) ∧
        onLock RWMutex.RUnlock a (h1 ++ t) = some (h ++ t) := by
  obtain ⟨B1, hb1, hvb1, hwb1⟩ :=
    getElem?_set_other (U := ⟨⟨A.lock.readers + 1, A.lock.writer⟩, A.values⟩) ha hb rfl rfl
  have ha1 := getElem?_set_same ⟨⟨A.lock.readers + 1, A.lock.writer⟩, A.values⟩ ha
  obtain ⟨A2, ha2, hva2, hwa2⟩ :=
    getElem?_set_other (U := ⟨⟨B1.lock.readers + 1, B1.lock.writer⟩, B1.values⟩) hb1 ha1
      rfl rfl
  have hb2 := getElem?_set_same ⟨⟨B1.lock.readers + 1, B1.lock.writer⟩, B1.values⟩ hb1
  refine ⟨_, _, A2, _, rlock_eq ha hwa, rlock_eq hb1 (by rw [hwb1, hwb]), by simp, ha2,
    hva2, by rw [hwa2]; exact hwa, hb2, hvb1, by rw [← hwb]; exact hwb1, fun t => ⟨?_, ?_⟩⟩
  · exact runlock_eq hb1 t
  · exact runlock_eq ha t

theorem set_length_append (h : Heap E) (R R1 : Set E) :
    (h ++ [R]).set h.length R1 = h ++ [R1] := by
  rw [List.set_append_right _ _ (Nat.le_refl _)]
  simp

/-- The loop of `Intersection` and `Difference`: a body that stores `v` in the fresh result
when `p v` holds, and changes nothing else, leaves the filtered keys in the result. -/
theorem forRange_filter [DecidableEq E] (h2 : Heap E) (p : E → Bool)
    (body : E → Heap E → Option (Heap E))
    (hbody : ∀ (v : E) (m : GoMap E), body v (h2 ++ [⟨RWMutex.zero, m⟩])
      = some (h2 ++ [⟨RWMutex.zero, if p v then m.store v else m⟩])) :
    ∀ (ms : List E) (m : GoMap E), forRange ms body (h2 ++ [⟨RWMutex.zero, m⟩])
      = some (h2 ++ [⟨RWMutex.zero, (ms.filter p).foldl GoMap.store m⟩]) := by
  intro ms
  induction ms with
  | nil => intro m; simp [forRange]
  | cons v rest ih =>
    intro m
    rw [forRange, hbody, Option.some_bind, ih]
    by_cases hp : p v = true
    · simp [List.filter_cons, hp]
    · simp [List.filter_cons, hp]

theorem Add_fresh [DecidableEq E] (h2 : Heap E) (m : GoMap E) (vals : List E) :
    Add h2.length vals (h2 ++ [⟨RWMutex.zero, m⟩])
      = some (h2 ++ [⟨RWMutex.zero, vals.foldl GoMap.store m⟩]) := by
  rw [Add_eq (List.getElem?_concat_length h2 _) rfl, set_length_append]

theorem Intersection_eq [DecidableEq E] {h : Heap E} {a b : Ptr} {A B : Set E}
    (ha : h[a]? = some A) (hb : h[b]? = some B) (hwa : A.lock.writer = false)
    (hwb : B.lock.writer = false) :
    Intersection a b h = some (h.length, h ++ [⟨RWMutex.zero,
      (A.values.keys.filter fun v => B.values.lookup v).foldl GoMap.store GoMap.make⟩]) := by
  obtain ⟨h1, h2, A2, B2, e1, e2, hlen, ha2, hva, hwa2, hb2, hvb, hwb2, hun⟩ :=
    two_rlocks ha hb hwa hwb
  have hlt_a : a < h2.length := lt_of_getElem? ha2
  have hlt_b : b < h2.length := lt_of_getElem? hb2
  have hmem : Members a (h2 ++ [⟨RWMutex.zero, GoMap.make⟩])
      = some (A.values.keys, h2 ++ [⟨RWMutex.zero, GoMap.make⟩]) := by
    rw [← hva]
    exact Members_eq (by rw [List.getElem?_append_left hlt_a]; exact ha2) hwa2
  have hloop := forRange_filter h2 (fun v => B.values.lookup v)
    (fun v h => (Contains b v h).bind fun x =>
      if x.1 = true then Add h2.length [v] x.2 else pure x.2)
    (by
      intro v m
      have hc : Contains b v (h2 ++ [⟨RWMutex.zero, m⟩])
          = some (B.values.lookup v, h2 ++ [⟨RWMutex.zero, m⟩]) := by
        rw [← hvb]
        exact Contains_eq (by rw [List.getElem?_append_left hlt_b]; exact hb2) hwb2 v
      simp only [hc, Option.some_bind]
      by_cases hp : B.values.lookup v = true
      · simp [hp, Add_fresh]
      · simp [hp])
    A.values.keys GoMap.make
  simp only [Intersection, e1, e2, New_eq, hmem, Option.bind_eq_bind, Option.some_bind,
    List.foldl_nil]
  rw [hloop]
  simp only [Option.some_bind, (hun _).1, (hun _).2, hlen]
  rfl

theorem Difference_eq [DecidableEq E] {h : Heap E} {a b : Ptr} {A B : Set E}
    (ha : h[a]? = some A) (hb : h[b]? = some B) (hwa : A.lock.writer = false)
    (hwb : B.lock.writer = false) :
    Difference a b h = some (h.length, h ++ [⟨RWMutex.zero,
      (A.values.keys.filter fun v => !B.values.lookup v).foldl GoMap.store GoMap.make⟩]) := by
  obtain ⟨h1, h2, A2, B2, e1, e2, hlen, ha2, hva, hwa2, hb2, hvb, hwb2, hun⟩ :=
    two_rlocks ha hb hwa hwb
  have hlt_a : a < h2.length := lt_of_getElem? ha2
  have hlt_b : b < h2.length := lt_of_getElem? hb2
  have hmem : Members a (h2 ++ [⟨RWMutex.zero, GoMap.make⟩])
      = some (A.values.keys, h2 ++ [⟨RWMutex.zero, GoMap.make⟩]) := by
    rw [← hva]
    exact Members_eq (by rw [List.getElem?_append_left hlt_a]; exact ha2) hwa2
  have hloop := forRange_filter h2 (fun v => !B.values.lookup v)
    (fun v h => (Contains b v h).bind fun x =>
      if (!x.1) = true then Add h2.length [v] x.2 else pure x.2)
    (by
      intro v m
      have hc : Contains b v (h2 ++ [⟨RWMutex.zero, m⟩])
          = some (B.values.lookup v, h2 ++ [⟨RWMutex.zero, m⟩]) := by
        rw [← hvb]
        exact Contains_eq (by rw [List.getElem?_append_left hlt_b]; exact hb2) hwb2 v
      simp only [hc, Option.some_bind]
      by_cases hp : B.values.lookup v = true
      · simp [hp]
      · simp [hp, Add_fresh])
    A.values.keys GoMap.make
  simp only [Difference, e1, e2, New_eq, hmem, Option.bind_eq_bind, Option.some_bind,
    List.foldl_nil]
  rw [hloop]
  simp only [Option.some_bind, (hun _).1, (hun _).2, hlen]
  rfl

theorem Union_eq [DecidableEq E] {h : Heap E} {a b : Ptr} {A B : Set E}
    (ha : h[a]? = some A) (hb : h[b]? = some B) (hwa : A.lock.writer = false)
    (hwb : B.lock.writer = false) :
    Union a b h = some (h.length, h ++ [⟨RWMutex.zero,
      B.values.keys.foldl GoMap.store (A.values.keys.foldl GoMap.store GoMap.make)⟩]) := by
  obtain ⟨h1, h2, A2, B2, e1, e2, hlen, ha2, hva, hwa2, hb2, hvb, hwb2, hun⟩ :=
    two_rlocks ha hb hwa hwb
  have hlt_b : b < h2.length := lt_of_getElem? hb2
  have hmem : Members a h2 = some (A.values.keys, h2) := by
    rw [← hva]
    exact Members_eq ha2 hwa2
  have hmem2 : ∀ m : GoMap E, Members b (h2 ++ [⟨RWMutex.zero, m⟩])
      = some (B.values.keys, h2 ++ [⟨RWMutex.zero, m⟩]) := by
    intro m
    rw [← hvb]
    exact Members_eq (by rw [List.getElem?_append_left hlt_b]; exact hb2) hwb2
  simp only [Union, e1, e2, New_eq, hmem, hmem2, Add_fresh, Option.bind_eq_bind,
    Option.some_bind, (hun _).1, (hun _).2]
  rw [hlen]
  rfl

theorem Disjoint_eq [DecidableEq E] {h : Heap E} {a b : Ptr} {A B : Set E}
    (ha : h[a]? = some A) (hb : h[b]? = some B) (hwa : A.lock.writer = false)
    (hwb : B.lock.writer = false) :
    Disjoint a b h = some (decide (((A.values.keys.filter fun v => B.values.lookup v).foldl
        GoMap.store GoMap.make).keys.length = 0),
      h ++ [⟨RWMutex.zero,
        (A.values.keys.filter fun v => B.values.lookup v).foldl GoMap.store GoMap.make⟩]) := by
  obtain ⟨h1, h2, A2, B2, e1, e2, hlen, ha2, hva, hwa2, hb2, hvb, hwb2, hun⟩ :=
    two_rlocks ha hb hwa hwb
  have hi := Intersection_eq ha2 hb2 hwa2 hwb2
  rw [hva, hvb] at hi
  have he := Empty_eq (List.getElem?_concat_length h2 ⟨RWMutex.zero,
    (A.values.keys.filter fun v => B.values.lookup v).foldl GoMap.store GoMap.make⟩) rfl
  simp only [Disjoint, e1, e2, hi, he, Option.bind_eq_bind, Option.some_bind, (hun _).1,
    (hun _).2]
  rfl

theorem keys_length_eq_zero_iff [DecidableEq E] (m : GoMap E) :
    m.keys.length = 0 ↔ ∀ x, m.lookup x = false := by
  rw [List.length_eq_zero]
  constructor
  · intro hk x
    simp [GoMap.lookup, hk]
  · intro hall
    apply List.eq_nil_iff_forall_not_mem.mpr
    intro x hx
    have := hall x
    simp [GoMap.lookup, hx] at this

theorem getElem?_push {h : Heap E} {p : Ptr} {T : Set E} (hp : h[p]? = some T) (t : Heap E) :
    (h ++ t)[p]? = some T := by
  rw [List.getElem?_append_left (lt_of_getElem? hp)]
  exact hp

theorem foldl_delete_absent [DecidableEq E] (vals : List E) (m : GoMap E)
    (habs : ∀ v ∈ vals, m.lookup v = false) : vals.foldl GoMap.delete m = m := by
  induction vals with
  | nil => rfl
  | cons v rest ih =>
    rw [List.foldl_cons, GoMap.delete_eq_self m v (habs v (List.mem_cons_self v rest))]
    exact ih fun w hw => habs w (List.mem_cons_of_mem v hw)

end composite

/-! ## Sizes, fresh results, the order-explicit methods and `String` -/

theorem mem_keys_iff [DecidableEq E] (m : GoMap E) (x : E) :
    x ∈ m.keys ↔ m.lookup x = true := by
  simp [GoMap.lookup]

/-- Two maps with the same answers to every lookup have the same number of keys. -/
theorem len_congr [DecidableEq E] (m n : GoMap E) (hmn : ∀ x, m.lookup x = n.lookup x) :
    m.keys.length = n.keys.length := by
  apply List.Perm.length_eq
  rw [List.perm_ext_iff_of_nodup m.nodup n.nodup]
  intro x
  rw [mem_keys_iff, mem_keys_iff, hmn]

theorem len_eq_card [DecidableEq E] (m : GoMap E) : m.keys.length = m.keys.toFinset.card :=
  (List.toFinset_card_of_nodup m.nodup).symm

theorem toFinset_foldl_store [DecidableEq E] (xs : List E) (m : GoMap E) :
    (xs.foldl GoMap.store m).keys.toFinset = m.keys.toFinset ∪ xs.toFinset := by
  ext x
  simp only [List.mem_toFinset, Finset.mem_union, mem_keys_iff, GoMap.lookup_foldl_store,
    Bool.or_eq_true, decide_eq_true_eq]

theorem toFinset_make [DecidableEq E] : (GoMap.make : GoMap E).keys.toFinset = ∅ := rfl

theorem toFinset_filter_store [DecidableEq E] (xs : List E) (p : E → Bool) :
    ((xs.filter p).foldl GoMap.store GoMap.make).keys.toFinset
      = xs.toFinset.filter fun x => p x = true := by
  rw [toFinset_foldl_store, toFinset_make, Finset.empty_union]
  ext x
  simp [List.mem_filter]

/-- The number of keys of a union, an intersection and a difference, as cardinalities. -/
theorem len_union [DecidableEq E] (A B : GoMap E) :
    (B.keys.foldl GoMap.store (A.keys.foldl GoMap.store GoMap.make)).keys.length
      = (A.keys.toFinset ∪ B.keys.toFinset).card := by
  rw [len_eq_card, toFinset_foldl_store, toFinset_foldl_store, toFinset_make,
    Finset.empty_union]

theorem len_inter [DecidableEq E] (A B : GoMap E) :
    ((A.keys.filter fun v => B.lookup v).foldl GoMap.store GoMap.make).keys.length
      = (A.keys.toFinset ∩ B.keys.toFinset).card := by
  rw [len_eq_card, toFinset_filter_store]
  congr 1
  ext x
  simp [mem_keys_iff]

theorem len_diff [DecidableEq E] (A B : GoMap E) :
    ((A.keys.filter fun v => !B.lookup v).foldl GoMap.store GoMap.make).keys.length
      = (A.keys.toFinset \ B.keys.toFinset).card := by
  rw [len_eq_card, toFinset_filter_store]
  congr 1
  ext x
  simp [mem_keys_iff]

theorem lookup_filter_store [DecidableEq E] (xs : List E) (p : E → Bool) (x : E) :
    ((xs.filter p).foldl GoMap.store GoMap.make).lookup x = (decide (x ∈ xs) && p x) := by
  rw [GoMap.lookup_foldl_store, GoMap.lookup_make, Bool.false_or]
  by_cases hx : x ∈ xs <;> simp [List.mem_filter, hx]

theorem toFinset_inter [DecidableEq E] (A B : GoMap E) :
    ((A.keys.filter fun v => B.lookup v).foldl GoMap.store GoMap.make).keys.toFinset
      = A.keys.toFinset ∩ B.keys.toFinset := by
  rw [toFinset_filter_store]
  ext x
  simp [mem_keys_iff]

theorem toFinset_diff [DecidableEq E] (A B : GoMap E) :
    ((A.keys.filter fun v => !B.lookup v).foldl GoMap.store GoMap.make).keys.toFinset
      = A.keys.toFinset \ B.keys.toFinset := by
  rw [toFinset_filter_store]
  ext x
  simp [mem_keys_iff]

theorem MembersBy_eq (ord : List E → List E) {h : Heap E} {s : Ptr} {S : Set E}
    (hs : h[s]? = some S) (hw : S.lock.writer = false) :
    MembersBy ord s h = some (ord S.values.keys, h) := by
  have hu := runlock_eq hs []
  simp only [List.append_nil] at hu
  simp [MembersBy, rlock_eq hs hw, getValues_eq (getElem?_set_same _ hs), hu,
    foldl_append_singleton, GoMap.range]

theorem String_eq (sprintf : List E → String) {h : Heap E} {s : Ptr} {S : Set E}
    (hs : h[s]? = some S) (hw : S.lock.writer = false) :
    Set.String sprintf s h = some (sprintf S.values.keys, h) := by
  have hu := runlock_eq hs []
  simp only [List.append_nil] at hu
  have hm : Members s (h.set s ⟨⟨S.lock.readers + 1, S.lock.writer⟩, S.values⟩)
      = some (S.values.keys, h.set s ⟨⟨S.lock.readers + 1, S.lock.writer⟩, S.values⟩) :=
    Members_eq (S := ⟨⟨S.lock.readers + 1, S.lock.writer⟩, S.values⟩)
      (getElem?_set_same _ hs) hw
  simp [Set.String, rlock_eq hs hw, hm, hu]

theorem IntersectionBy_eq [DecidableEq E] (ord : List E → List E) {h : Heap E} {a b : Ptr}
    {A B : Set E} (ha : h[a]? = some A) (hb : h[b]? = some B)
    (hwa : A.lock.writer = false) (hwb : B.lock.writer = false) :
    IntersectionBy ord a b h = some (h.length, h ++ [⟨RWMutex.zero,
      ((ord A.values.keys).filter fun v => B.values.lookup v).foldl GoMap.store
        GoMap.make⟩]) := by
  obtain ⟨h1, h2, A2, B2, e1, e2, hlen, ha2, hva, hwa2, hb2, hvb, hwb2, hun⟩ :=
    two_rlocks ha hb hwa hwb
  have hlt_a : a < h2.length := lt_of_getElem? ha2
  have hlt_b : b < h2.length := lt_of_getElem? hb2
  have hmem : MembersBy ord a (h2 ++ [⟨RWMutex.zero, GoMap.make⟩])
      = some (ord A.values.keys, h2 ++ [⟨RWMutex.zero, GoMap.make⟩]) := by
    rw [← hva]
    exact MembersBy_eq ord (by rw [List.getElem?_append_left hlt_a]; exact ha2) hwa2
  have hloop := forRange_filter h2 (fun v => B.values.lookup v)
    (fun v h => (Contains b v h).bind fun x =>
      if x.1 = true then Add h2.length [v] x.2 else pure x.2)
    (by
      intro v m
      have hc : Contains b v (h2 ++ [⟨RWMutex.zero, m⟩])
          = some (B.values.lookup v, h2 ++ [⟨RWMutex.zero, m⟩]) := by
        rw [← hvb]
        exact Contains_eq (by rw [List.getElem?_append_left hlt_b]; exact hb2) hwb2 v
      simp only [hc, Option.some_bind]
      by_cases hp : B.values.lookup v = true
      · simp [hp, Add_fresh]
      · simp [hp])
    (ord A.values.keys) GoMap.make
  simp only [IntersectionBy, e1, e2, New_eq, hmem, Option.bind_eq_bind, Option.some_bind,
    List.foldl_nil]
  rw [hloop]
  simp only [Option.some_bind, (hun _).1, (hun _).2, hlen]
  rfl

theorem DifferenceBy_eq [DecidableEq E] (ord : List E → List E) {h : Heap E} {a b : Ptr}
    {A B : Set E} (ha : h[a]? = some A) (hb : h[b]? = some B)
    (hwa : A.lock.writer = false) (hwb : B.lock.writer = false) :
    DifferenceBy ord a b h = some (h.length, h ++ [⟨RWMutex.zero,
      ((ord A.values.keys).filter fun v => !B.values.lookup v).foldl GoMap.store
        GoMap.make⟩]) := by
  obtain ⟨h1, h2, A2, B2, e1, e2, hlen, ha2, hva, hwa2, hb2, hvb, hwb2, hun⟩ :=
    two_rlocks ha hb hwa hwb
  have hlt_a : a < h2.length := lt_of_getElem? ha2
  have hlt_b : b < h2.length := lt_of_getElem? hb2
  have hmem : MembersBy ord a (h2 ++ [⟨RWMutex.zero, GoMap.make⟩])
      = some (ord A.values.keys, h2 ++ [⟨RWMutex.zero, GoMap.make⟩]) := by
    rw [← hva]
    exact MembersBy_eq ord (by rw [List.getElem?_append_left hlt_a]; exact ha2) hwa2
  have hloop := forRange_filter h2 (fun v => !B.values.lookup v)
    (fun v h => (Contains b v h).bind fun x =>
      if (!x.1) = true then Add h2.length [v] x.2 else pure x.2)
    (by
      intro v m
      have hc : Contains b v (h2 ++ [⟨RWMutex.zero, m⟩])
          = some (B.values.lookup v, h2 ++ [⟨RWMutex.zero, m⟩]) := by
        rw [← hvb]
        exact Contains_eq (by rw [List.getElem?_append_left hlt_b]; exact hb2) hwb2 v
      simp only [hc, Option.some_bind]
      by_cases hp : B.values.lookup v = true
      · simp [hp]
      · simp [hp, Add_fresh])
    (ord A.values.keys) GoMap.make
  simp only [DifferenceBy, e1, e2, New_eq, hmem, Option.bind_eq_bind, Option.some_bind,
    List.foldl_nil]
  rw [hloop]
  simp only [Option.some_bind, (hun _).1, (hun _).2, hlen]
  rfl

theorem UnionBy_eq [DecidableEq E] (ord ord2 : List E → List E) {h : Heap E} {a b : Ptr}
    {A B : Set E} (ha : h[a]? = some A) (hb : h[b]? = some B)
    (hwa : A.lock.writer = false) (hwb : B.lock.writer = false) :
    UnionBy ord ord2 a b h = some (h.length, h ++ [⟨RWMutex.zero,
      (ord2 B.values.keys).foldl GoMap.store
        ((ord A.values.keys).foldl GoMap.store GoMap.make)⟩]) := by
  obtain ⟨h1, h2, A2, B2, e1, e2, hlen, ha2, hva, hwa2, hb2, hvb, hwb2, hun⟩ :=
    two_rlocks ha hb hwa hwb
  have hlt_b : b < h2.length := lt_of_getElem? hb2
  have hmem : MembersBy ord a h2 = some (ord A.values.keys, h2) := by
    rw [← hva]
    exact MembersBy_eq ord ha2 hwa2
  have hmem2 : ∀ m : GoMap E, MembersBy ord2 b (h2 ++ [⟨RWMutex.zero, m⟩])
      = some (ord2 B.values.keys, h2 ++ [⟨RWMutex.zero, m⟩]) := by
    intro m
    rw [← hvb]
    exact MembersBy_eq ord2 (by rw [List.getElem?_append_left hlt_b]; exact hb2) hwb2
  simp only [UnionBy, e1, e2, New_eq, hmem, hmem2, Add_fresh, Option.bind_eq_bind,
    Option.some_bind, (hun _).1, (hun _).2]
  rw [hlen]
  rfl

theorem DisjointBy_eq [DecidableEq E] (ord : List E → List E) {h : Heap E} {a b : Ptr}
    {A B : Set E} (ha : h[a]? = some A) (hb : h[b]? = some B)
    (hwa : A.lock.writer = false) (hwb : B.lock.writer = false) :
    DisjointBy ord a b h
      = some (decide ((((ord A.values.keys).filter fun v => B.values.lookup v).foldl
          GoMap.store GoMap.make).keys.length = 0),
        h ++ [⟨RWMutex.zero,
          ((ord A.values.keys).filter fun v => B.values.lookup v).foldl GoMap.store
            GoMap.make⟩]) := by
  obtain ⟨h1, h2, A2, B2, e1, e2, hlen, ha2, hva, hwa2, hb2, hvb, hwb2, hun⟩ :=
    two_rlocks ha hb hwa hwb
  have hi := IntersectionBy_eq ord ha2 hb2 hwa2 hwb2
  rw [hva, hvb] at hi
  have he := Empty_eq (List.getElem?_concat_length h2 ⟨RWMutex.zero,
    ((ord A.values.keys).filter fun v => B.values.lookup v).foldl GoMap.store
      GoMap.make⟩) rfl
  simp only [DisjointBy, e1, e2, hi, he, Option.bind_eq_bind, Option.some_bind, (hun _).1,
    (hun _).2]
  rfl

/-- A freshly returned set is a new object: the operands are in the new store what they
were, the result is neither of them, and `Add`, `Delete` and `Clear` on the result return
and leave the operands alone. -/
theorem fresh_result_frame [DecidableEq E] {h : Heap E} {a b : Ptr} {A B : Set E}
    (ha : h[a]? = some A) (hb : h[b]? = some B) (m : GoMap E) (vals : List E) :
    (h ++ [⟨RWMutex.zero, m⟩])[a]? = some A ∧ (h ++ [⟨RWMutex.zero, m⟩])[b]? = some B ∧
    h[h.length]? = none ∧ h.length ≠ a ∧ h.length ≠ b ∧
    (∃ h2 : Heap E, Add h.length vals (h ++ [⟨RWMutex.zero, m⟩]) = some h2 ∧
      h2[a]? = some A ∧ h2[b]? = some B) ∧
    (∃ h2 : Heap E, Delete h.length vals (h ++ [⟨RWMutex.zero, m⟩]) = some h2 ∧
      h2[a]? = some A ∧ h2[b]? = some B) ∧
    (∃ h2 : Heap E, Clear h.length (h ++ [⟨RWMutex.zero, m⟩]) = some h2 ∧
      h2[a]? = some A ∧ h2[b]? = some B) := by
  have hr := List.getElem?_concat_length h (⟨RWMutex.zero, m⟩ : Set E)
  refine ⟨getElem?_push ha _, getElem?_push hb _, List.getElem?_eq_none (Nat.le_refl _),
    Nat.ne_of_gt (lt_of_getElem? ha), Nat.ne_of_gt (lt_of_getElem? hb),
    ⟨_, Add_eq hr rfl vals, ?_, ?_⟩, ⟨_, Delete_eq hr rfl vals, ?_, ?_⟩,
    ⟨_, Clear_eq hr rfl, ?_, ?_⟩⟩ <;>
  · rw [set_length_append]
    first
      | exact getElem?_push ha _
      | exact getElem?_push hb _

theorem map_lock_set {h : Heap E} {s : Ptr} {S : Set E} (hs : h[s]? = some S)
    (m : GoMap E) :
    (h.set s (⟨S.lock, m⟩ : Set E)).map (fun T => T.lock) = h.map (fun T => T.lock) := by
  apply List.ext_getElem?
  intro i
  rw [List.getElem?_map, List.getElem?_map]
  by_cases hi : s = i
  · subst hi
    rw [getElem?_set_same _ hs, hs]
    rfl
  · rw [List.getElem?_set_ne hi]

/-- Two fresh sets whose maps answer every lookup alike answer `Contains` and `Size` alike
and list the same `Members` up to order. -/
theorem same_answers [DecidableEq E] (h : Heap E) (m n : GoMap E)
    (hmn : ∀ x, m.lookup x = n.lookup x) :
    (∀ x : E, ∃ c : Bool,
      Contains h.length x (h ++ [⟨RWMutex.zero, m⟩])
        = some (c, h ++ [⟨RWMutex.zero, m⟩]) ∧
      Contains h.length x (h ++ [⟨RWMutex.zero, n⟩])
        = some (c, h ++ [⟨RWMutex.zero, n⟩])) ∧
    (∃ k : Nat,
      Size h.length (h ++ [⟨RWMutex.zero, m⟩]) = some (k, h ++ [⟨RWMutex.zero, m⟩]) ∧
      Size h.length (h ++ [⟨RWMutex.zero, n⟩]) = some (k, h ++ [⟨RWMutex.zero, n⟩])) ∧
    ∃ ms ms' : List E,
      Members h.length (h ++ [⟨RWMutex.zero, m⟩]) = some (ms, h ++ [⟨RWMutex.zero, m⟩]) ∧
      Members h.length (h ++ [⟨RWMutex.zero, n⟩]) = some (ms', h ++ [⟨RWMutex.zero, n⟩]) ∧
      ms.Perm ms' := by
  have hm := List.getElem?_concat_length h (⟨RWMutex.zero, m⟩ : Set E)
  have hn := List.getElem?_concat_length h (⟨RWMutex.zero, n⟩ : Set E)
  refine ⟨fun x => ⟨m.lookup x, Contains_eq hm rfl x, ?_⟩,
    ⟨m.keys.length, Size_eq hm rfl, ?_⟩, m.keys, n.keys, Members_eq hm rfl,
    Members_eq hn rfl, ?_⟩
  · rw [Contains_eq hn rfl, hmn]
  · rw [Size_eq hn rfl, len_congr m n hmn]
  · rw [List.perm_ext_iff_of_nodup m.nodup n.nodup]
    intro x
    rw [mem_keys_iff, mem_keys_iff, hmn]

/-! ## The claims -/

section claims


/-- C2: for all sets `A` and `B` (the same object or not) no writer holds, `A.Union(B)`
returns a set `u` with `u.Contains(x) == (A.Contains(x) || B.Contains(x))` for every `x`,
where `A.Contains(x)` and `B.Contains(x)` are the answers before the call and after it
alike; and `New(1,2).Union(New(2,3))` has exactly the members 1, 2, 3. -/
theorem Union_Contains [DecidableEq E] :
    (∀ (h : Heap E) (a b : Ptr) (A B : Set E), h[a]? = some A → h[b]? = some B →
      A.lock.writer = false → B.lock.writer = false →
      ∃ (u : Ptr) (h1 : Heap E), Union a b h = some (u, h1) ∧
        ∀ x : E, ∃ ca cb : Bool,
          Contains a x h = some (ca, h) ∧ Contains b x h = some (cb, h) ∧
          Contains a x h1 = some (ca, h1) ∧ Contains b x h1 = some (cb, h1) ∧
          Contains u x h1 = some (ca || cb, h1)) ∧
    ∃ ms : List Nat, (do
        let (a, h) := New [1, 2] ([] : Heap Nat)
        let (b, h) := New [2, 3] h
        let (u, h) ← Union a b h
        let (ms, _) ← Members u h
        pure ms) = some ms ∧ ms.Perm [1, 2, 3] := by
  refine ⟨?_, [1, 2, 3], rfl, by decide⟩
  intro h a b A B ha hb hwa hwb
  refine ⟨_, _, Union_eq ha hb hwa hwb, fun x => ⟨A.values.lookup x, B.values.lookup x,
    Contains_eq ha hwa x, Contains_eq hb hwb x, ?_, ?_, ?_⟩⟩
  · exact Contains_eq (by rw [List.getElem?_append_left (lt_of_getElem? ha)]; exact ha) hwa x
  · exact Contains_eq (by rw [List.getElem?_append_left (lt_of_getElem? hb)]; exact hb) hwb x
  · rw [Contains_eq (List.getElem?_concat_length h _) rfl, GoMap.lookup_foldl_store,
      GoMap.lookup_foldl_store, GoMap.lookup_make, Bool.false_or]
    rfl

theorem Union_Contains_witness :
    ∃ (u : Ptr) (h1 : Heap Nat),
      Union 0 1 (New [2, 3] (New [1, 2] []).2).2 = some (u, h1) ∧
      ∀ x : Nat, ∃ ca cb : Bool,
        Contains 0 x (New [2, 3] (New [1, 2] []).2).2
          = some (ca, (New [2, 3] (New [1, 2] []).2).2) ∧
        Contains 1 x (New [2, 3] (New [1, 2] []).2).2
          = some (cb, (New [2, 3] (New [1, 2] []).2).2) ∧
        Contains 0 x h1 = some (ca, h1) ∧ Contains 1 x h1 = some (cb, h1) ∧
        Contains u x h1 = some (ca || cb, h1) :=
  Union_Contains.1 (New [2, 3] (New [1, 2] []).2).2 0 1
    ⟨RWMutex.zero, [1, 2].foldl GoMap.store GoMap.make⟩
    ⟨RWMutex.zero, [2, 3].foldl GoMap.store GoMap.make⟩ (by rfl) (by rfl) (by rfl) (by rfl)

/-- C3: for all sets `A` and `B` (the same object or not) no writer holds,
`A.Intersection(B)` returns a set `i` with
`i.Contains(x) == (A.Contains(x) && B.Contains(x))` for every `x`, where `A.Contains(x)`
and `B.Contains(x)` are the answers before the call and after it alike; and
`New(1,2).Intersection(New(2,3))` has exactly the member 2. -/
theorem Intersection_Contains [DecidableEq E] :
    (∀ (h : Heap E) (a b : Ptr) (A B : Set E), h[a]? = some A → h[b]? = some B →
      A.lock.writer = false → B.lock.writer = false →
      ∃ (i : Ptr) (h1 : Heap E), Intersection a b h = some (i, h1) ∧
        ∀ x : E, ∃ ca cb : Bool,
          Contains a x h = some (ca, h) ∧ Contains b x h = some (cb, h) ∧
          Contains a x h1 = some (ca, h1) ∧ Contains b x h1 = some (cb, h1) ∧
          Contains i x h1 = some (ca && cb, h1)) ∧
    ∃ ms : List Nat, (do
        let (a, h) := New [1, 2] ([] : Heap Nat)
        let (b, h) := New [2, 3] h
        let (i, h) ← Intersection a b h
        let (ms, _) ← Members i h
        pure ms) = some ms ∧ ms.Perm [2] := by
  refine ⟨?_, [2], rfl, by decide⟩
  intro h a b A B ha hb hwa hwb
  refine ⟨_, _, Intersection_eq ha hb hwa hwb, fun x => ⟨A.values.lookup x,
    B.values.lookup x, Contains_eq ha hwa x, Contains_eq hb hwb x,
    Contains_eq (getElem?_push ha _) hwa x, Contains_eq (getElem?_push hb _) hwb x, ?_⟩⟩
  rw [Contains_eq (List.getElem?_concat_length h _) rfl, GoMap.lookup_foldl_store,
    GoMap.lookup_make, Bool.false_or]
  congr 1
  by_cases hx : x ∈ A.values.keys <;> simp [GoMap.lookup, hx]

theorem Intersection_Contains_witness :
    ∃ (i : Ptr) (h1 : Heap Nat),
      Intersection 0 1 (New [2, 3] (New [1, 2] []).2).2 = some (i, h1) ∧
      ∀ x : Nat, ∃ ca cb : Bool,
        Contains 0 x (New [2, 3] (New [1, 2] []).2).2
          = some (ca, (New [2, 3] (New [1, 2] []).2).2) ∧
        Contains 1 x (New [2, 3] (New [1, 2] []).2).2
          = some (cb, (New [2, 3] (New [1, 2] []).2).2) ∧
        Contains 0 x h1 = some (ca, h1) ∧ Contains 1 x h1 = some (cb, h1) ∧
        Contains i x h1 = some (ca && cb, h1) :=
  Intersection_Contains.1 (New [2, 3] (New [1, 2] []).2).2 0 1
    ⟨RWMutex.zero, [1, 2].foldl GoMap.store GoMap.make⟩
    ⟨RWMutex.zero, [2, 3].foldl GoMap.store GoMap.make⟩ (by rfl) (by rfl) (by rfl) (by rfl)

/-- C4: for all sets `A` and `B` (the same object or not) no writer holds,
`A.Difference(B)` returns a set `d` with
`d.Contains(x) == (A.Contains(x) && !B.Contains(x))` for every `x`, where `A.Contains(x)`
and `B.Contains(x)` are the answers before the call and after it alike; and
`New(1,2,3,4).Difference(New(3,4))` has exactly the members 1, 2 and `Size() == 2`. -/
theorem Difference_Contains [DecidableEq E] :
    (∀ (h : Heap E) (a b : Ptr) (A B : Set E), h[a]? = some A → h[b]? = some B →
      A.lock.writer = false → B.lock.writer = false →
      ∃ (d : Ptr) (h1 : Heap E), Difference a b h = some (d, h1) ∧
        ∀ x : E, ∃ ca cb : Bool,
          Contains a x h = some (ca, h) ∧ Contains b x h = some (cb, h) ∧
          Contains a x h1 = some (ca, h1) ∧ Contains b x h1 = some (cb, h1) ∧
          Contains d x h1 = some (ca && !cb, h1)) ∧
    ∃ ms : List Nat, (do
        let (a, h) := New [1, 2, 3, 4] ([] : Heap Nat)
        let (b, h) := New [3, 4] h
        let (d, h) ← Difference a b h
        let (ms, h) ← Members d h
        let (n, _) ← Size d h
        pure (ms, n)) = some (ms, 2) ∧ ms.Perm [1, 2] := by
  refine ⟨?_, [1, 2], rfl, by decide⟩
  intro h a b A B ha hb hwa hwb
  refine ⟨_, _, Difference_eq ha hb hwa hwb, fun x => ⟨A.values.lookup x,
    B.values.lookup x, Contains_eq ha hwa x, Contains_eq hb hwb x,
    Contains_eq (getElem?_push ha _) hwa x, Contains_eq (getElem?_push hb _) hwb x, ?_⟩⟩
  rw [Contains_eq (List.getElem?_concat_length h _) rfl, GoMap.lookup_foldl_store,
    GoMap.lookup_make, Bool.false_or]
  congr 1
  by_cases hx : x ∈ A.values.keys <;> simp [GoMap.lookup, hx]

theorem Difference_Contains_witness :
    ∃ (d : Ptr) (h1 : Heap Nat),
      Difference 0 1 (New [3, 4] (New [1, 2, 3, 4] []).2).2 = some (d, h1) ∧
      ∀ x : Nat, ∃ ca cb : Bool,
        Contains 0 x (New [3, 4] (New [1, 2, 3, 4] []).2).2
          = some (ca, (New [3, 4] (New [1, 2, 3, 4] []).2).2) ∧
        Contains 1 x (New [3, 4] (New [1, 2, 3, 4] []).2).2
          = some (cb, (New [3, 4] (New [1, 2, 3, 4] []).2).2) ∧
        Contains 0 x h1 = some (ca, h1) ∧ Contains 1 x h1 = some (cb, h1) ∧
        Contains d x h1 = some (ca && !cb, h1) :=
  Difference_Contains.1 (New [3, 4] (New [1, 2, 3, 4] []).2).2 0 1
    ⟨RWMutex.zero, [1, 2, 3, 4].foldl GoMap.store GoMap.make⟩
    ⟨RWMutex.zero, [3, 4].foldl GoMap.store GoMap.make⟩ (by rfl) (by rfl) (by rfl) (by rfl)

/-- C5: for all sets `A` and `B` (the same object or not) no writer holds, `A.Disjoint(B)`
returns the value of `A.Intersection(B).Empty()`, and that value is true if and only if no
value `x` has both `A.Contains(x)` and `B.Contains(x)`; `New(1,2).Disjoint(New(3,4))` is
true and `New(1,2).Disjoint(New(2,3))` is false. -/
theorem Disjoint_iff [DecidableEq E] :
    (∀ (h : Heap E) (a b : Ptr) (A B : Set E), h[a]? = some A → h[b]? = some B →
      A.lock.writer = false → B.lock.writer = false →
      ∃ (r : Bool) (h1 : Heap E) (i : Ptr) (h2 : Heap E),
        Disjoint a b h = some (r, h1) ∧
        Intersection a b h = some (i, h2) ∧ Empty i h2 = some (r, h2) ∧
        (r = true ↔
          ¬ ∃ x : E, Contains a x h = some (true, h) ∧ Contains b x h = some (true, h))) ∧
    (do
      let (a, h) := New [1, 2] ([] : Heap Nat)
      let (b, h) := New [3, 4] h
      let (r, _) ← Disjoint a b h
      pure r) = some true ∧
    (do
      let (a, h) := New [1, 2] ([] : Heap Nat)
      let (b, h) := New [2, 3] h
      let (r, _) ← Disjoint a b h
      pure r) = some false := by
  refine ⟨?_, rfl, rfl⟩
  intro h a b A B ha hb hwa hwb
  refine ⟨_, _, _, _, Disjoint_eq ha hb hwa hwb, Intersection_eq ha hb hwa hwb,
    Empty_eq (List.getElem?_concat_length h _) rfl, ?_⟩
  rw [decide_eq_true_iff, keys_length_eq_zero_iff]
  simp only [Contains_eq ha hwa, Contains_eq hb hwb, GoMap.lookup_foldl_store,
    GoMap.lookup_make, Bool.false_or]
  constructor
  · rintro hall ⟨x, hxa, hxb⟩
    have := hall x
    simp only [Option.some.injEq, Prod.mk.injEq, and_true] at hxa hxb
    simp [GoMap.lookup] at this hxa hxb
    exact this hxa hxb
  · intro hno x
    by_contra hx
    apply hno
    refine ⟨x, ?_, ?_⟩ <;> simp [GoMap.lookup] at hx ⊢ <;> simp [hx]

theorem Disjoint_iff_witness :
    ∃ (r : Bool) (h1 : Heap Nat) (i : Ptr) (h2 : Heap Nat),
      Disjoint 0 1 (New [2, 3] (New [1, 2] []).2).2 = some (r, h1) ∧
      Intersection 0 1 (New [2, 3] (New [1, 2] []).2).2 = some (i, h2) ∧
      Empty i h2 = some (r, h2) ∧
      (r = true ↔
        ¬ ∃ x : Nat,
          Contains 0 x (New [2, 3] (New [1, 2] []).2).2
            = some (true, (New [2, 3] (New [1, 2] []).2).2) ∧
          Contains 1 x (New [2, 3] (New [1, 2] []).2).2
            = some (true, (New [2, 3] (New [1, 2] []).2).2)) :=
  Disjoint_iff.1 (New [2, 3] (New [1, 2] []).2).2 0 1
    ⟨RWMutex.zero, [1, 2].foldl GoMap.store GoMap.make⟩
    ⟨RWMutex.zero, [2, 3].foldl GoMap.store GoMap.make⟩ (by rfl) (by rfl) (by rfl) (by rfl)





/-- C8: for every unlocked set `s`, every finite sequence `vals` and every value `x`,
`s.Delete(vals...)` returns, and afterwards `s.Contains(x)` is true if and only if it was
true before the call and `x` does not appear in `vals`; and `New(1,2,3)` after `Delete(3)`
has exactly the members 1, 2. -/
theorem Delete_Contains [DecidableEq E] :
    (∀ (h : Heap E) (s : Ptr) (S : Set E) (vals : List E), h[s]? = some S →
      S.lock = RWMutex.zero →
      ∃ h1 : Heap E, Delete s vals h = some h1 ∧
        ∀ x : E, ∃ c : Bool, Contains s x h = some (c, h) ∧
          Contains s x h1 = some (c && !decide (x ∈ vals), h1)) ∧
    ∃ ms : List Nat, (do
        let (s, h) := New [1, 2, 3] ([] : Heap Nat)
        let h ← Delete s [3] h
        let (ms, _) ← Members s h
        pure ms) = some ms ∧ ms.Perm [1, 2] := by
  refine ⟨?_, [1, 2], rfl, by decide⟩
  intro h s S vals hs hl
  have hw : S.lock.writer = false := by rw [hl]; rfl
  refine ⟨_, Delete_eq hs hl vals, fun x => ⟨S.values.lookup x, Contains_eq hs hw x, ?_⟩⟩
  rw [Contains_eq (getElem?_set_same ⟨S.lock, vals.foldl GoMap.delete S.values⟩ hs) hw,
    GoMap.lookup_foldl_delete]

theorem Delete_Contains_witness :
    ∃ h1 : Heap Nat, Delete 0 [3, 5] (New [1, 2, 3] []).2 = some h1 ∧
      ∀ x : Nat, ∃ c : Bool,
        Contains 0 x (New [1, 2, 3] []).2 = some (c, (New [1, 2, 3] []).2) ∧
        Contains 0 x h1 = some (c && !decide (x ∈ [3, 5]), h1) :=
  Delete_Contains.1 (New [1, 2, 3] []).2 0
    ⟨RWMutex.zero, [1, 2, 3].foldl GoMap.store GoMap.make⟩ [3, 5]
    (by rfl) (by rfl)

/-- C9: deleting absent values leaves the set unchanged: for every unlocked set `s` and
every sequence `vals` none of whose values `s` contains, `s.Delete(vals...)` returns and
the store after it equals the store before (same members, same `Size`); and `New(1,2,3)`
after `Delete(4)` still has exactly the members 1, 2, 3. -/
theorem Delete_absent_unchanged [DecidableEq E] :
    (∀ (h : Heap E) (s : Ptr) (S : Set E) (vals : List E), h[s]? = some S →
      S.lock = RWMutex.zero → (∀ v ∈ vals, Contains s v h = some (false, h)) →
      Delete s vals h = some h) ∧
    Delete 0 [4] (New [1, 2, 3] ([] : Heap Nat)).2 = some (New [1, 2, 3] ([] : Heap Nat)).2 ∧
    ∃ ms : List Nat, (do
        let (s, h) := New [1, 2, 3] ([] : Heap Nat)
        let h ← Delete s [4] h
        let (ms, h) ← Members s h
        let (n, _) ← Size s h
        pure (ms, n)) = some (ms, 3) ∧ ms.Perm [1, 2, 3] := by
  refine ⟨?_, rfl, [1, 2, 3], rfl, by decide⟩
  intro h s S vals hs hl habs
  rw [Delete_eq hs hl vals, foldl_delete_absent vals S.values, set_self hs]
  intro v hv
  have hc := habs v hv
  rw [Contains_eq hs (by rw [hl]; rfl)] at hc
  simpa using hc

theorem Delete_absent_unchanged_witness :
    (∀ v ∈ [4, 5], Contains 0 v (New [1, 2, 3] []).2 = some (false, (New [1, 2, 3] []).2)) ∧
    Delete 0 [4, 5] (New [1, 2, 3] []).2 = some (New [1, 2, 3] []).2 :=
  have habs : ∀ v ∈ [4, 5],
      Contains 0 v (New [1, 2, 3] []).2 = some (false, (New [1, 2, 3] []).2) := by
    intro v hv
    simp only [List.mem_cons, List.mem_singleton, List.not_mem_nil, or_false] at hv
    rcases hv with rfl | rfl <;> rfl
  ⟨habs, Delete_absent_unchanged.1 (New [1, 2, 3] []).2 0
    ⟨RWMutex.zero, [1, 2, 3].foldl GoMap.store GoMap.make⟩ [4, 5] (by rfl) (by rfl) habs⟩

/-- C10: for every unlocked set `s`, `s.Clear()` returns, and afterwards `Size() == 0`,
`Empty() == true` and `Contains(x) == false` for every value `x`. -/
theorem Clear_empty [DecidableEq E] (h : Heap E) (s : Ptr) (S : Set E)
    (hs : h[s]? = some S) (hl : S.lock = RWMutex.zero) :
    ∃ h1 : Heap E, Clear s h = some h1 ∧ Size s h1 = some (0, h1) ∧
      Empty s h1 = some (true, h1) ∧ ∀ x : E, Contains s x h1 = some (false, h1) := by
  have hw : S.lock.writer = false := by rw [hl]; rfl
  have hs1 := getElem?_set_same ⟨S.lock, GoMap.make⟩ hs
  exact ⟨_, Clear_eq hs hl, Size_eq hs1 hw, Empty_eq hs1 hw, fun x => by
    rw [Contains_eq hs1 hw, GoMap.lookup_make]⟩

theorem Clear_empty_witness :
    ∃ h1 : Heap Nat, Clear 0 (New [1, 2, 3] []).2 = some h1 ∧ Size 0 h1 = some (0, h1) ∧
      Empty 0 h1 = some (true, h1) ∧ ∀ x : Nat, Contains 0 x h1 = some (false, h1) :=
  Clear_empty (New [1, 2, 3] []).2 0 ⟨RWMutex.zero, [1, 2, 3].foldl GoMap.store GoMap.make⟩
    (by rfl) (by rfl)





/-- C13: for all sets `A` and `B` (the same object or not) no writer holds, `A.Union(B)`
and `B.Union(A)` both return, their `Size()` is the same number, and they answer every
`Contains` alike. -/
theorem Union_Size_comm [DecidableEq E] (h : Heap E) (a b : Ptr) (A B : Set E)
    (ha : h[a]? = some A) (hb : h[b]? = some B) (hwa : A.lock.writer = false)
    (hwb : B.lock.writer = false) :
    ∃ (u : Ptr) (h1 : Heap E) (w : Ptr) (h2 : Heap E),
      Union a b h = some (u, h1) ∧ Union b a h = some (w, h2) ∧
      (∃ n : Nat, Size u h1 = some (n, h1) ∧ Size w h2 = some (n, h2)) ∧
      ∀ x : E, ∃ c : Bool, Contains u x h1 = some (c, h1) ∧
        Contains w x h2 = some (c, h2) := by
  refine ⟨_, _, _, _, Union_eq ha hb hwa hwb, Union_eq hb ha hwb hwa,
    ⟨(A.values.keys.toFinset ∪ B.values.keys.toFinset).card, ?_, ?_⟩,
    fun x => ⟨A.values.lookup x || B.values.lookup x, ?_, ?_⟩⟩
  · rw [Size_eq (List.getElem?_concat_length h _) rfl, len_union]
  · rw [Size_eq (List.getElem?_concat_length h _) rfl, len_union, Finset.union_comm]
  · rw [Contains_eq (List.getElem?_concat_length h _) rfl, GoMap.lookup_foldl_store,
      GoMap.lookup_foldl_store, GoMap.lookup_make, Bool.false_or]
    rfl
  · rw [Contains_eq (List.getElem?_concat_length h _) rfl, GoMap.lookup_foldl_store,
      GoMap.lookup_foldl_store, GoMap.lookup_make, Bool.false_or, Bool.or_comm]
    rfl

theorem Union_Size_comm_witness :
    ∃ (u : Ptr) (h1 : Heap Nat) (w : Ptr) (h2 : Heap Nat),
      Union 0 1 (New [2, 3, 4] (New [1, 2] []).2).2 = some (u, h1) ∧
      Union 1 0 (New [2, 3, 4] (New [1, 2] []).2).2 = some (w, h2) ∧
      (∃ n : Nat, Size u h1 = some (n, h1) ∧ Size w h2 = some (n, h2)) ∧
      ∀ x : Nat, ∃ c : Bool, Contains u x h1 = some (c, h1) ∧
        Contains w x h2 = some (c, h2) :=
  Union_Size_comm (New [2, 3, 4] (New [1, 2] []).2).2 0 1
    ⟨RWMutex.zero, [1, 2].foldl GoMap.store GoMap.make⟩
    ⟨RWMutex.zero, [2, 3, 4].foldl GoMap.store GoMap.make⟩ (by rfl) (by rfl) (by rfl) (by rfl)

/-- C14: the two-set methods never change their operands: for all sets `A` and `B` (the
same object or not) no writer holds, and `op` one of `Union`, `Intersection` and
`Difference`, the call `A.op(B)` returns a result `r` that was not allocated before and is
neither `A` nor `B`; `A` and `B` are afterwards the objects they were and list the same
`Members`; and a later `Add`, `Delete` or `Clear` on `r` returns and leaves `A` and `B` as
they were.  `A.Disjoint(B)` returns and leaves `A` and `B` as they were. -/
theorem composite_operands_unchanged [DecidableEq E] (h : Heap E) (a b : Ptr) (A B : Set E)
    (ha : h[a]? = some A) (hb : h[b]? = some B) (hwa : A.lock.writer = false)
    (hwb : B.lock.writer = false) :
    (∀ op : Ptr → Ptr → Heap E → Option (Ptr × Heap E),
      op = Union ∨ op = Intersection ∨ op = Difference →
      ∃ (r : Ptr) (h1 : Heap E), op a b h = some (r, h1) ∧
        h1[a]? = some A ∧ h1[b]? = some B ∧ h[r]? = none ∧ r ≠ a ∧ r ≠ b ∧
        (∃ ma mb : List E, Members a h = some (ma, h) ∧ Members a h1 = some (ma, h1) ∧
          Members b h = some (mb, h) ∧ Members b h1 = some (mb, h1)) ∧
        ∀ vals : List E,
          (∃ h2 : Heap E, Add r vals h1 = some h2 ∧ h2[a]? = some A ∧ h2[b]? = some B) ∧
          (∃ h2 : Heap E, Delete r vals h1 = some h2 ∧ h2[a]? = some A ∧ h2[b]? = some B) ∧
          (∃ h2 : Heap E, Clear r h1 = some h2 ∧ h2[a]? = some A ∧ h2[b]? = some B)) ∧
    ∃ (d : Bool) (h1 : Heap E), Disjoint a b h = some (d, h1) ∧
      h1[a]? = some A ∧ h1[b]? = some B ∧
      ∃ ma mb : List E, Members a h = some (ma, h) ∧ Members a h1 = some (ma, h1) ∧
        Members b h = some (mb, h) ∧ Members b h1 = some (mb, h1) := by
  have key : ∀ m : GoMap E,
      (h ++ [⟨RWMutex.zero, m⟩])[a]? = some A ∧
      (h ++ [⟨RWMutex.zero, m⟩])[b]? = some B ∧
      ∃ ma mb : List E, Members a h = some (ma, h) ∧
        Members a (h ++ [⟨RWMutex.zero, m⟩]) = some (ma, h ++ [⟨RWMutex.zero, m⟩]) ∧
        Members b h = some (mb, h) ∧
        Members b (h ++ [⟨RWMutex.zero, m⟩]) = some (mb, h ++ [⟨RWMutex.zero, m⟩]) :=
    fun m => ⟨getElem?_push ha _, getElem?_push hb _, _, _, Members_eq ha hwa,
      Members_eq (getElem?_push ha _) hwa, Members_eq hb hwb,
      Members_eq (getElem?_push hb _) hwb⟩
  refine ⟨?_, _, _, Disjoint_eq ha hb hwa hwb, (key _).1, (key _).2.1, (key _).2.2⟩
  intro op hop
  have gen : ∀ m : GoMap E, op a b h = some (h.length, h ++ [⟨RWMutex.zero, m⟩]) →
      ∃ (r : Ptr) (h1 : Heap E), op a b h = some (r, h1) ∧
        h1[a]? = some A ∧ h1[b]? = some B ∧ h[r]? = none ∧ r ≠ a ∧ r ≠ b ∧
        (∃ ma mb : List E, Members a h = some (ma, h) ∧ Members a h1 = some (ma, h1) ∧
          Members b h = some (mb, h) ∧ Members b h1 = some (mb, h1)) ∧
        ∀ vals : List E,
          (∃ h2 : Heap E, Add r vals h1 = some h2 ∧ h2[a]? = some A ∧ h2[b]? = some B) ∧
          (∃ h2 : Heap E, Delete r vals h1 = some h2 ∧ h2[a]? = some A ∧ h2[b]? = some B) ∧
          (∃ h2 : Heap E, Clear r h1 = some h2 ∧ h2[a]? = some A ∧ h2[b]? = some B) := by
    intro m hm
    have f := fresh_result_frame ha hb m
    exact ⟨_, _, hm, (f []).1, (f []).2.1, (f []).2.2.1, (f []).2.2.2.1, (f []).2.2.2.2.1,
      (key m).2.2, fun vals => (f vals).2.2.2.2.2⟩
  rcases hop with rfl | rfl | rfl
  · exact gen _ (Union_eq ha hb hwa hwb)
  · exact gen _ (Intersection_eq ha hb hwa hwb)
  · exact gen _ (Difference_eq ha hb hwa hwb)

theorem composite_operands_unchanged_witness :
    ∃ (r : Ptr) (h1 : Heap Nat), Union 0 0 (New [1, 2] []).2 = some (r, h1) ∧
      h1[0]? = some ⟨RWMutex.zero, [1, 2].foldl GoMap.store GoMap.make⟩ ∧
      h1[0]? = some ⟨RWMutex.zero, [1, 2].foldl GoMap.store GoMap.make⟩ ∧
      (New [1, 2] ([] : Heap Nat)).2[r]? = none ∧ r ≠ 0 ∧ r ≠ 0 ∧
      (∃ ma mb : List Nat, Members 0 (New [1, 2] []).2 = some (ma, (New [1, 2] []).2) ∧
        Members 0 h1 = some (ma, h1) ∧
        Members 0 (New [1, 2] []).2 = some (mb, (New [1, 2] []).2) ∧
        Members 0 h1 = some (mb, h1)) ∧
      ∀ vals : List Nat,
        (∃ h2 : Heap Nat, Add r vals h1 = some h2 ∧
          h2[0]? = some ⟨RWMutex.zero, [1, 2].foldl GoMap.store GoMap.make⟩ ∧
          h2[0]? = some ⟨RWMutex.zero, [1, 2].foldl GoMap.store GoMap.make⟩) ∧
        (∃ h2 : Heap Nat, Delete r vals h1 = some h2 ∧
          h2[0]? = some ⟨RWMutex.zero, [1, 2].foldl GoMap.store GoMap.make⟩ ∧
          h2[0]? = some ⟨RWMutex.zero, [1, 2].foldl GoMap.store GoMap.make⟩) ∧
        (∃ h2 : Heap Nat, Clear r h1 = some h2 ∧
          h2[0]? = some ⟨RWMutex.zero, [1, 2].foldl GoMap.store GoMap.make⟩ ∧
          h2[0]? = some ⟨RWMutex.zero, [1, 2].foldl GoMap.store GoMap.make⟩) :=
  (composite_operands_unchanged (New [1, 2] []).2 0 0
    ⟨RWMutex.zero, [1, 2].foldl GoMap.store GoMap.make⟩
    ⟨RWMutex.zero, [1, 2].foldl GoMap.store GoMap.make⟩ (by rfl) (by rfl) (by rfl)
    (by rfl)).1 Union (Or.inl rfl)



/-- C16: every lock acquired is released again: every operation returns with the lock of
every set in the store as it was before the call, whatever that state was when it let the
call proceed (shared holders allowed for the methods that only take shared locks; unlocked
for `Add`, `Delete` and `Clear`, which take the exclusive lock), and the set allocated by
`New`, `Union`, `Intersection` and `Difference` (and inside `Disjoint`) is unlocked. -/
theorem locks_released [DecidableEq E] (sprintf : List E → String) (h : Heap E)
    (s s2 : Ptr) (S S2 : Set E) (hs : h[s]? = some S) (hs2 : h[s2]? = some S2)
    (hw : S.lock.writer = false) (hw2 : S2.lock.writer = false) (vals : List E) (v : E) :
    (∃ (r : Bool) (h1 : Heap E), Contains s v h = some (r, h1) ∧
      h1.map (fun T => T.lock) = h.map (fun T => T.lock)) ∧
    (∃ (r : Nat) (h1 : Heap E), Size s h = some (r, h1) ∧
      h1.map (fun T => T.lock) = h.map (fun T => T.lock)) ∧
    (∃ (r : Bool) (h1 : Heap E), Empty s h = some (r, h1) ∧
      h1.map (fun T => T.lock) = h.map (fun T => T.lock)) ∧
    (∃ (r : List E) (h1 : Heap E), Members s h = some (r, h1) ∧
      h1.map (fun T => T.lock) = h.map (fun T => T.lock)) ∧
    (∃ (r : String) (h1 : Heap E), Set.String sprintf s h = some (r, h1) ∧
      h1.map (fun T => T.lock) = h.map (fun T => T.lock)) ∧
    (∀ op : Ptr → Ptr → Heap E → Option (Ptr × Heap E),
      op = Union ∨ op = Intersection ∨ op = Difference →
      ∃ (r : Ptr) (h1 : Heap E) (R : Set E), op s s2 h = some (r, h1) ∧
        h1.map (fun T => T.lock) = h.map (fun T => T.lock) ++ [RWMutex.zero] ∧
        r = h.length ∧ h1[r]? = some R ∧ R.lock = RWMutex.zero) ∧
    (∃ (r : Bool) (h1 : Heap E), Disjoint s s2 h = some (r, h1) ∧
      h1.map (fun T => T.lock) = h.map (fun T => T.lock) ++ [RWMutex.zero]) ∧
    ((New vals h).2.map (fun T => T.lock) = h.map (fun T => T.lock) ++ [RWMutex.zero] ∧
      (New vals h).1 = h.length) ∧
    (S.lock = RWMutex.zero →
      (∃ h1 : Heap E, Add s vals h = some h1 ∧
        h1.map (fun T => T.lock) = h.map (fun T => T.lock)) ∧
      (∃ h1 : Heap E, Delete s vals h = some h1 ∧
        h1.map (fun T => T.lock) = h.map (fun T => T.lock)) ∧
      (∃ h1 : Heap E, Clear s h = some h1 ∧
        h1.map (fun T => T.lock) = h.map (fun T => T.lock))) := by
  have gen : ∀ m : GoMap E, (h ++ ([⟨RWMutex.zero, m⟩] : Heap E)).map (fun T => T.lock)
      = h.map (fun T => T.lock) ++ [RWMutex.zero] := fun m => by
    rw [List.map_append]
    rfl
  refine ⟨⟨_, _, Contains_eq hs hw v, rfl⟩, ⟨_, _, Size_eq hs hw, rfl⟩,
    ⟨_, _, Empty_eq hs hw, rfl⟩, ⟨_, _, Members_eq hs hw, rfl⟩,
    ⟨_, _, String_eq sprintf hs hw, rfl⟩, ?_, ⟨_, _, Disjoint_eq hs hs2 hw hw2, gen _⟩,
    ⟨by rw [New_eq]; exact gen _, by rw [New_eq]⟩, fun hl =>
      ⟨⟨_, Add_eq hs hl vals, map_lock_set hs _⟩,
        ⟨_, Delete_eq hs hl vals, map_lock_set hs _⟩,
        ⟨_, Clear_eq hs hl, map_lock_set hs _⟩⟩⟩
  intro op hop
  rcases hop with rfl | rfl | rfl
  · exact ⟨_, _, _, Union_eq hs hs2 hw hw2, gen _, rfl, List.getElem?_concat_length h _, rfl⟩
  · exact ⟨_, _, _, Intersection_eq hs hs2 hw hw2, gen _, rfl,
      List.getElem?_concat_length h _, rfl⟩
  · exact ⟨_, _, _, Difference_eq hs hs2 hw hw2, gen _, rfl,
      List.getElem?_concat_length h _, rfl⟩

theorem locks_released_witness :
    (∃ (r : Ptr) (h1 : Heap Nat) (R : Set Nat),
      Difference 0 1 (New [2, 3] (New [1, 2] []).2).2 = some (r, h1) ∧
      h1.map (fun T => T.lock)
        = (New [2, 3] (New [1, 2] []).2).2.map (fun T => T.lock) ++ [RWMutex.zero] ∧
      r = (New [2, 3] (New [1, 2] []).2).2.length ∧ h1[r]? = some R ∧
      R.lock = RWMutex.zero) ∧
    ∃ h1 : Heap Nat, Add 0 [3, 4] (New [2, 3] (New [1, 2] []).2).2 = some h1 ∧
      h1.map (fun T => T.lock) = (New [2, 3] (New [1, 2] []).2).2.map (fun T => T.lock) := by
  obtain ⟨-, -, -, -, -, hop, -, -, hwr⟩ :=
    locks_released (fun l => toString l) (New [2, 3] (New [1, 2] []).2).2 0 1
      ⟨RWMutex.zero, [1, 2].foldl GoMap.store GoMap.make⟩
      ⟨RWMutex.zero, [2, 3].foldl GoMap.store GoMap.make⟩ (by rfl) (by rfl) (by rfl)
      (by rfl) [3, 4] 7
  exact ⟨hop Difference (Or.inr (Or.inr rfl)), (hwr (by rfl)).1⟩

/-- C18: inclusion-exclusion for sizes: for all sets `A` and `B` (the same object or not)
no writer holds, `A.Union(B).Size() + A.Intersection(B).Size() == A.Size() + B.Size()`,
every call returning. -/
theorem Union_Intersection_Size [DecidableEq E] (h : Heap E) (a b : Ptr) (A B : Set E)
    (ha : h[a]? = some A) (hb : h[b]? = some B) (hwa : A.lock.writer = false)
    (hwb : B.lock.writer = false) :
    ∃ (u : Ptr) (h1 : Heap E) (i : Ptr) (h2 : Heap E) (nu ni na nb : Nat),
      Union a b h = some (u, h1) ∧ Intersection a b h1 = some (i, h2) ∧
      Size u h2 = some (nu, h2) ∧ Size i h2 = some (ni, h2) ∧
      Size a h2 = some (na, h2) ∧ Size b h2 = some (nb, h2) ∧
      Size a h = some (na, h) ∧ Size b h = some (nb, h) ∧
      nu + ni = na + nb := by
  have ha1 := getElem?_push ha
    [⟨RWMutex.zero,
      B.values.keys.foldl GoMap.store (A.values.keys.foldl GoMap.store GoMap.make)⟩]
  have hb1 := getElem?_push hb
    [⟨RWMutex.zero,
      B.values.keys.foldl GoMap.store (A.values.keys.foldl GoMap.store GoMap.make)⟩]
  have hu1 := List.getElem?_concat_length h (⟨RWMutex.zero,
    B.values.keys.foldl GoMap.store (A.values.keys.foldl GoMap.store GoMap.make)⟩ : Set E)
  refine ⟨_, _, _, _, _, _, _, _, Union_eq ha hb hwa hwb, Intersection_eq ha1 hb1 hwa hwb,
    Size_eq (getElem?_push hu1 _) rfl, Size_eq (List.getElem?_concat_length _ _) rfl,
    Size_eq (getElem?_push ha1 _) hwa, Size_eq (getElem?_push hb1 _) hwb,
    Size_eq ha hwa, Size_eq hb hwb, ?_⟩
  rw [len_union, len_inter, len_eq_card A.values, len_eq_card B.values]
  exact Finset.card_union_add_card_inter _ _

theorem Union_Intersection_Size_witness :
    ∃ (u : Ptr) (h1 : Heap Nat) (i : Ptr) (h2 : Heap Nat) (nu ni na nb : Nat),
      Union 0 1 (New [2, 3, 4] (New [1, 2] []).2).2 = some (u, h1) ∧
      Intersection 0 1 h1 = some (i, h2) ∧
      Size u h2 = some (nu, h2) ∧ Size i h2 = some (ni, h2) ∧
      Size 0 h2 = some (na, h2) ∧ Size 1 h2 = some (nb, h2) ∧
      Size 0 (New [2, 3, 4] (New [1, 2] []).2).2
        = some (na, (New [2, 3, 4] (New [1, 2] []).2).2) ∧
      Size 1 (New [2, 3, 4] (New [1, 2] []).2).2
        = some (nb, (New [2, 3, 4] (New [1, 2] []).2).2) ∧
      nu + ni = na + nb :=
  Union_Intersection_Size (New [2, 3, 4] (New [1, 2] []).2).2 0 1
    ⟨RWMutex.zero, [1, 2].foldl GoMap.store GoMap.make⟩
    ⟨RWMutex.zero, [2, 3, 4].foldl GoMap.store GoMap.make⟩ (by rfl) (by rfl) (by rfl) (by rfl)

/-- C19: `Difference` and `Intersection` partition the receiver: for all sets `A` and `B`
(the same object or not) no writer holds, with `d = A.Difference(B)` and
`i = A.Intersection(B)`, the call `d.Disjoint(i)` returns true, `d.Union(i)` answers every
`Contains` as `A` does, and `d.Size() + i.Size() == A.Size()`; every call returns. -/
theorem Difference_Intersection_partition [DecidableEq E] (h : Heap E) (a b : Ptr)
    (A B : Set E) (ha : h[a]? = some A) (hb : h[b]? = some B)
    (hwa : A.lock.writer = false) (hwb : B.lock.writer = false) :
    ∃ (d : Ptr) (h1 : Heap E) (i : Ptr) (h2 h3 : Heap E) (u : Ptr) (h4 : Heap E)
      (nd ni na : Nat),
      Difference a b h = some (d, h1) ∧ Intersection a b h1 = some (i, h2) ∧
      Disjoint d i h2 = some (true, h3) ∧
      Union d i h3 = some (u, h4) ∧
      (∀ x : E, ∃ c : Bool, Contains a x h4 = some (c, h4) ∧
        Contains u x h4 = some (c, h4)) ∧
      Size d h4 = some (nd, h4) ∧ Size i h4 = some (ni, h4) ∧ Size a h4 = some (na, h4) ∧
      nd + ni = na := by
  let D : Set E := ⟨RWMutex.zero,
    (A.values.keys.filter fun v => !B.values.lookup v).foldl GoMap.store GoMap.make⟩
  let I : Set E := ⟨RWMutex.zero,
    (A.values.keys.filter fun v => B.values.lookup v).foldl GoMap.store GoMap.make⟩
  let X : Set E := ⟨RWMutex.zero,
    (D.values.keys.filter fun v => I.values.lookup v).foldl GoMap.store GoMap.make⟩
  let U : Set E := ⟨RWMutex.zero,
    I.values.keys.foldl GoMap.store (D.values.keys.foldl GoMap.store GoMap.make)⟩
  have hd1 : (h ++ [D])[h.length]? = some D := List.getElem?_concat_length h D
  have hi2 : (h ++ [D] ++ [I])[(h ++ [D]).length]? = some I :=
    List.getElem?_concat_length (h ++ [D]) I
  have hd2 : (h ++ [D] ++ [I])[h.length]? = some D := getElem?_push hd1 [I]
  have hu4 : (h ++ [D] ++ [I] ++ [X] ++ [U])[(h ++ [D] ++ [I] ++ [X]).length]? = some U :=
    List.getElem?_concat_length (h ++ [D] ++ [I] ++ [X]) U
  have hdisj : decide (X.values.keys.length = 0) = true := by
    rw [decide_eq_true_iff, len_inter, toFinset_diff, toFinset_inter, Finset.card_eq_zero]
    ext x
    simp only [Finset.mem_inter, Finset.mem_sdiff, Finset.not_mem_empty, iff_false]
    tauto
  have e3 := Disjoint_eq hd2 hi2 (by rfl) (by rfl)
  rw [hdisj] at e3
  refine ⟨_, _, _, _, _, _, _, _, _, _, Difference_eq ha hb hwa hwb,
    Intersection_eq (getElem?_push ha [D]) (getElem?_push hb [D]) hwa hwb, e3,
    Union_eq (getElem?_push hd2 [X]) (getElem?_push hi2 [X]) (by rfl) (by rfl),
    fun x => ⟨A.values.lookup x, ?_, ?_⟩,
    Size_eq (getElem?_push (getElem?_push hd2 [X]) [U]) (by rfl),
    Size_eq (getElem?_push (getElem?_push hi2 [X]) [U]) (by rfl),
    Size_eq (getElem?_push (getElem?_push (getElem?_push (getElem?_push ha [D]) [I]) [X])
      [U]) hwa, ?_⟩
  · exact Contains_eq (getElem?_push (getElem?_push (getElem?_push (getElem?_push ha [D])
      [I]) [X]) [U]) hwa x
  · rw [Contains_eq hu4 (by rfl)]
    congr 2
    show (I.values.keys.foldl GoMap.store (D.values.keys.foldl GoMap.store GoMap.make)).lookup x
      = A.values.lookup x
    rw [GoMap.lookup_foldl_store, GoMap.lookup_foldl_store, GoMap.lookup_make, Bool.false_or]
    have hD : decide (x ∈ D.values.keys) = (A.values.lookup x && !B.values.lookup x) :=
      lookup_filter_store A.values.keys (fun v => !B.values.lookup v) x
    have hI : decide (x ∈ I.values.keys) = (A.values.lookup x && B.values.lookup x) :=
      lookup_filter_store A.values.keys (fun v => B.values.lookup v) x
    rw [hD, hI]
    cases A.values.lookup x <;> cases B.values.lookup x <;> rfl
  · show D.values.keys.length + I.values.keys.length = A.values.keys.length
    rw [len_diff, len_inter, len_eq_card A.values]
    exact Finset.card_sdiff_add_card_inter _ _

theorem Difference_Intersection_partition_witness :
    ∃ (d : Ptr) (h1 : Heap Nat) (i : Ptr) (h2 h3 : Heap Nat) (u : Ptr) (h4 : Heap Nat)
      (nd ni na : Nat),
      Difference 0 1 (New [3, 4, 5] (New [1, 2, 3, 4] []).2).2 = some (d, h1) ∧
      Intersection 0 1 h1 = some (i, h2) ∧
      Disjoint d i h2 = some (true, h3) ∧
      Union d i h3 = some (u, h4) ∧
      (∀ x : Nat, ∃ c : Bool, Contains 0 x h4 = some (c, h4) ∧
        Contains u x h4 = some (c, h4)) ∧
      Size d h4 = some (nd, h4) ∧ Size i h4 = some (ni, h4) ∧ Size 0 h4 = some (na, h4) ∧
      nd + ni = na :=
  Difference_Intersection_partition (New [3, 4, 5] (New [1, 2, 3, 4] []).2).2 0 1
    ⟨RWMutex.zero, [1, 2, 3, 4].foldl GoMap.store GoMap.make⟩
    ⟨RWMutex.zero, [3, 4, 5].foldl GoMap.store GoMap.make⟩ (by rfl) (by rfl) (by rfl)
    (by rfl)

/-- C20: the two-set methods are deterministic although `Members()` may list the keys in
any order: for all sets `A` and `B` (the same object or not) no writer holds, and any two
choices of the order of every `range` loop (each a permutation of the keys), the two runs
of `Union`, of `Intersection` and of `Difference` both return, and their results answer
every `Contains` alike, have the same `Size` and list the same `Members` up to order; the
two runs of `Disjoint` return the same value.  The methods as first defined are the runs
with the keys in stored order. -/
theorem composite_order_independent [DecidableEq E] (ord ord2 ord' ord2' : List E → List E)
    (hord : ∀ l, (ord l).Perm l) (hord2 : ∀ l, (ord2 l).Perm l)
    (hord' : ∀ l, (ord' l).Perm l) (hord2' : ∀ l, (ord2' l).Perm l)
    (h : Heap E) (a b : Ptr) (A B : Set E) (ha : h[a]? = some A) (hb : h[b]? = some B)
    (hwa : A.lock.writer = false) (hwb : B.lock.writer = false) :
    (@Members E = MembersBy id ∧ @Union E _ = UnionBy id id ∧
      @Intersection E _ = IntersectionBy id ∧ @Difference E _ = DifferenceBy id ∧
      @Disjoint E _ = DisjointBy id) ∧
    (∀ op op' : Ptr → Ptr → Heap E → Option (Ptr × Heap E),
      (op = UnionBy ord ord2 ∧ op' = UnionBy ord' ord2') ∨
      (op = IntersectionBy ord ∧ op' = IntersectionBy ord') ∨
      (op = DifferenceBy ord ∧ op' = DifferenceBy ord') →
      ∃ (r : Ptr) (h1 : Heap E) (r' : Ptr) (h1' : Heap E),
        op a b h = some (r, h1) ∧ op' a b h = some (r', h1') ∧
        (∀ x : E, ∃ c : Bool, Contains r x h1 = some (c, h1) ∧
          Contains r' x h1' = some (c, h1')) ∧
        (∃ k : Nat, Size r h1 = some (k, h1) ∧ Size r' h1' = some (k, h1')) ∧
        ∃ ms ms' : List E, Members r h1 = some (ms, h1) ∧
          Members r' h1' = some (ms', h1') ∧ ms.Perm ms') ∧
    ∃ (d : Bool) (h1 h1' : Heap E),
      DisjointBy ord a b h = some (d, h1) ∧ DisjointBy ord' a b h = some (d, h1') := by
  have hmem : ∀ (o o' : List E → List E), (∀ l, (o l).Perm l) → (∀ l, (o' l).Perm l) →
      ∀ (l : List E) (x : E), decide (x ∈ o l) = decide (x ∈ o' l) := by
    intro o o' ho ho' l x
    rw [decide_eq_decide, (ho l).mem_iff, (ho' l).mem_iff]
  have hinter : ∀ x, (((ord A.values.keys).filter fun v => B.values.lookup v).foldl
      GoMap.store GoMap.make).lookup x
      = (((ord' A.values.keys).filter fun v => B.values.lookup v).foldl
        GoMap.store GoMap.make).lookup x := by
    intro x
    rw [lookup_filter_store, lookup_filter_store, hmem ord ord' hord hord']
  refine ⟨⟨rfl, rfl, rfl, rfl, rfl⟩, ?_, ?_⟩
  · intro op op' hop
    rcases hop with ⟨rfl, rfl⟩ | ⟨rfl, rfl⟩ | ⟨rfl, rfl⟩
    · refine ⟨_, _, _, _, UnionBy_eq ord ord2 ha hb hwa hwb,
        UnionBy_eq ord' ord2' ha hb hwa hwb, same_answers h _ _ ?_⟩
      intro x
      simp only [GoMap.lookup_foldl_store, GoMap.lookup_make, Bool.false_or]
      rw [hmem ord ord' hord hord', hmem ord2 ord2' hord2 hord2']
    · exact ⟨_, _, _, _, IntersectionBy_eq ord ha hb hwa hwb,
        IntersectionBy_eq ord' ha hb hwa hwb, same_answers h _ _ hinter⟩
    · refine ⟨_, _, _, _, DifferenceBy_eq ord ha hb hwa hwb,
        DifferenceBy_eq ord' ha hb hwa hwb, same_answers h _ _ ?_⟩
      intro x
      rw [lookup_filter_store, lookup_filter_store, hmem ord ord' hord hord']
  · have e' := DisjointBy_eq ord' ha hb hwa hwb
    rw [← len_congr _ _ hinter] at e'
    exact ⟨_, _, _, DisjointBy_eq ord ha hb hwa hwb, e'⟩

theorem composite_order_independent_witness :
    ∃ (r : Ptr) (h1 : Heap Nat) (r' : Ptr) (h1' : Heap Nat),
      UnionBy List.reverse id 0 1 (New [2, 3] (New [1, 2] []).2).2 = some (r, h1) ∧
      UnionBy id List.reverse 0 1 (New [2, 3] (New [1, 2] []).2).2 = some (r', h1') ∧
      (∀ x : Nat, ∃ c : Bool, Contains r x h1 = some (c, h1) ∧
        Contains r' x h1' = some (c, h1')) ∧
      (∃ k : Nat, Size r h1 = some (k, h1) ∧ Size r' h1' = some (k, h1')) ∧
      ∃ ms ms' : List Nat, Members r h1 = some (ms, h1) ∧
        Members r' h1' = some (ms', h1') ∧ ms.Perm ms' :=
  (composite_order_independent List.reverse id id List.reverse
    (fun l => List.reverse_perm l) (fun l => List.Perm.refl l) (fun l => List.Perm.refl l)
    (fun l => List.reverse_perm l) (New [2, 3] (New [1, 2] []).2).2 0 1
    ⟨RWMutex.zero, [1, 2].foldl GoMap.store GoMap.make⟩
    ⟨RWMutex.zero, [2, 3].foldl GoMap.store GoMap.make⟩ (by rfl) (by rfl) (by rfl)
    (by rfl)).2.1 (UnionBy List.reverse id) (UnionBy id List.reverse) (Or.inl ⟨rfl, rfl⟩)

end claims

namespace Comparable

/-! ## Keys of any `comparable` type: the map -/

theorem cmp_ext_keys [Comparable E] {m n : Map E} (h : m.keys = n.keys) : m = n := by
  cases m; cases n; cases h; rfl

theorem mem_insertKey [DecidableEq E] [Comparable E] (ks : List E) (v x : E) :
    x ∈ insertKey ks v ↔ x ∈ ks ∨ x = v := by
  unfold insertKey
  split
  · rename_i hin
    constructor
    · exact Or.inl
    · rintro (hx | rfl)
      · exact hx
      · exact hin.2
  · simp

theorem mem_foldl_insertKey [DecidableEq E] [Comparable E] (vals ks : List E) (x : E) :
    x ∈ vals.foldl insertKey ks ↔ x ∈ ks ∨ x ∈ vals := by
  induction vals generalizing ks with
  | nil => simp
  | cons v rest ih =>
    rw [List.foldl_cons, ih, mem_insertKey, List.mem_cons, or_assoc]


/-- Where every key is equal to itself, `insertKey` is what `GoMap.store` does to the
keys. -/
theorem insertKey_lawful [DecidableEq E] [Comparable E] (hall : ∀ x : E, selfEq x = true)
    (m : GoMap E) (v : E) : insertKey m.keys v = (m.store v).keys := by
  unfold insertKey GoMap.store
  by_cases hv : v ∈ m.keys
  · simp [hv, hall v]
  · simp [hv]

/-- Where every key is equal to itself, `removeKey` is what `GoMap.delete` does to the
keys. -/
theorem removeKey_lawful [DecidableEq E] [Comparable E] (hall : ∀ x : E, selfEq x = true)
    (m : GoMap E) (v : E) : removeKey m.keys v = (m.delete v).keys := by
  unfold removeKey GoMap.delete
  simp [hall v]

theorem insertKey_of_mem [DecidableEq E] [Comparable E] (ks : List E) (v : E)
    (hv : selfEq v = true) (hmem : v ∈ ks) : insertKey ks v = ks := by
  unfold insertKey
  rw [if_pos ⟨hv, hmem⟩]

theorem store_some [DecidableEq E] [Comparable E] (m : Map E) (v : E)
    (hv : hashable v = true) :
    ∃ m1 : Map E, store (some m) v = some m1 ∧ m1.keys = insertKey m.keys v := by
  unfold store
  simp only [hv, dite_true]
  exact ⟨_, rfl, rfl⟩



theorem delete_some [DecidableEq E] [Comparable E] (m : Map E) (v : E)
    (hv : hashable v = true) :
    ∃ m1 : Map E, delete (some m) v = some (some m1) ∧ m1.keys = removeKey m.keys v := by
  unfold delete
  simp only [hv, if_true]
  exact ⟨_, rfl, rfl⟩

theorem delete_nil [DecidableEq E] [Comparable E] (v : E) (hv : hashable v = true) :
    delete (none : Option (Map E)) v = some none := by
  simp [delete, hv]

/-! ## Keys of any `comparable` type: the store, the lock and the single-set methods -/

theorem cmp_lt_of_getElem? [Comparable E] {h : Heap E} {s : Ptr} {S : Set E}
    (hs : h[s]? = some S) : s < h.length := by
  obtain ⟨hlt, -⟩ := List.getElem?_eq_some.mp hs
  exact hlt

theorem cmp_set_self [Comparable E] {h : Heap E} {s : Ptr} {S : Set E}
    (hs : h[s]? = some S) : h.set s S = h := by
  apply List.ext_getElem?
  intro i
  by_cases hi : s = i
  · subst hi
    rw [List.getElem?_set_self (cmp_lt_of_getElem? hs), hs]
  · rw [List.getElem?_set_ne hi]

theorem cmp_getElem?_set_same [Comparable E] {h : Heap E} {s : Ptr} {S : Set E} (T : Set E)
    (hs : h[s]? = some S) : (h.set s T)[s]? = some T :=
  List.getElem?_set_self (cmp_lt_of_getElem? hs)

theorem cmp_getElem?_push [Comparable E] {h : Heap E} {p : Ptr} {T : Set E}
    (hp : h[p]? = some T) (t : Heap E) : (h ++ t)[p]? = some T := by
  rw [List.getElem?_append_left (cmp_lt_of_getElem? hp)]
  exact hp

theorem cmp_set_length_append [Comparable E] (h : Heap E) (R R1 : Set E) :
    (h ++ [R]).set h.length R1 = h ++ [R1] := by
  rw [List.set_append_right _ _ (Nat.le_refl _)]
  simp

theorem cmp_onLock_eq [Comparable E] {f : RWMutex → Option RWMutex} {h : Heap E} {s : Ptr}
    {S : Set E} {l : RWMutex} (hs : h[s]? = some S) (hf : f S.lock = some l) :
    onLock f s h = some (h.set s { S with lock := l }) := by
  simp [onLock, hs, hf]

theorem cmp_getValues_eq [Comparable E] {h : Heap E} {s : Ptr} {S : Set E}
    (hs : h[s]? = some S) : getValues s h = some S.values := by
  simp [getValues, hs]

theorem cmp_setValues_eq [Comparable E] {h : Heap E} {s : Ptr} {S : Set E}
    (m : Option (Map E)) (hs : h[s]? = some S) :
    setValues s m h = some (h.set s { S with values := m }) := by
  simp [setValues, hs]

theorem cmp_getElem?_set_other [Comparable E] {h : Heap E} {s p : Ptr} {S T U : Set E}
    (hs : h[s]? = some S) (hp : h[p]? = some T) (hv : U.values = S.values)
    (hw : U.lock.writer = S.lock.writer) :
    ∃ T1, (h.set s U)[p]? = some T1 ∧ T1.values = T.values ∧
      T1.lock.writer = T.lock.writer := by
  by_cases hsp : s = p
  · subst hsp
    rw [hs] at hp
    cases hp
    exact ⟨U, cmp_getElem?_set_same U hs, hv, hw⟩
  · exact ⟨T, by rw [List.getElem?_set_ne hsp, hp], rfl, rfl⟩

theorem cmp_rlock_eq [Comparable E] {h : Heap E} {s : Ptr} {S : Set E}
    (hs : h[s]? = some S) (hw : S.lock.writer = false) :
    onLock RWMutex.RLock s h
      = some (h.set s ⟨⟨S.lock.readers + 1, S.lock.writer⟩, S.values⟩) := by
  apply cmp_onLock_eq hs
  simp [RWMutex.RLock, hw]

theorem cmp_runlock_eq [Comparable E] {h : Heap E} {s : Ptr} {S : Set E}
    (hs : h[s]? = some S) (t : Heap E) :
    onLock RWMutex.RUnlock s (h.set s ⟨⟨S.lock.readers + 1, S.lock.writer⟩, S.values⟩ ++ t)
      = some (h ++ t) := by
  have hlt := cmp_lt_of_getElem? hs
  have hget : (h.set s ⟨⟨S.lock.readers + 1, S.lock.writer⟩, S.values⟩ ++ t)[s]?
      = some ⟨⟨S.lock.readers + 1, S.lock.writer⟩, S.values⟩ := by
    rw [List.getElem?_append_left (by simpa using hlt)]
    exact cmp_getElem?_set_same _ hs
  rw [cmp_onLock_eq hget (l := S.lock) (by simp [RWMutex.RUnlock])]
  rw [List.set_append_left _ _ (by simpa using hlt), List.set_set]
  congr 2
  exact cmp_set_self hs

theorem cmp_Contains_eq [DecidableEq E] [Comparable E] {h : Heap E} {s : Ptr} {S : Set E}
    (hs : h[s]? = some S) (hw : S.lock.writer = false) (v : E) (hv : hashable v = true) :
    Contains s v h = some (selfEq v && decide (v ∈ range S.values), h) := by
  have hu := cmp_runlock_eq hs []
  simp only [List.append_nil] at hu
  have hl : lookup S.values v = some (selfEq v && decide (v ∈ range S.values)) := by
    cases hS : S.values with
    | none => simp [lookup, hv, range]
    | some m => simp [lookup, hv, range]
  simp [Contains, cmp_rlock_eq hs hw, cmp_getValues_eq (cmp_getElem?_set_same _ hs), hu, hl]

theorem cmp_Contains_unhashable [DecidableEq E] [Comparable E] {h : Heap E} {s : Ptr} {S : Set E}
    (hs : h[s]? = some S) (hw : S.lock.writer = false) (v : E) (hv : hashable v = false) :
    Contains s v h = none := by
  simp [Contains, cmp_rlock_eq hs hw, cmp_getValues_eq (cmp_getElem?_set_same _ hs),
    lookup, hv]

theorem cmp_Members_eq [Comparable E] {h : Heap E} {s : Ptr} {S : Set E}
    (hs : h[s]? = some S) (hw : S.lock.writer = false) :
    Members s h = some (range S.values, h) := by
  have hu := cmp_runlock_eq hs []
  simp only [List.append_nil] at hu
  simp [Members, cmp_rlock_eq hs hw, cmp_getValues_eq (cmp_getElem?_set_same _ hs), hu,
    foldl_append_singleton]

theorem cmp_Size_eq [Comparable E] {h : Heap E} {s : Ptr} {S : Set E}
    (hs : h[s]? = some S) (hw : S.lock.writer = false) :
    Size s h = some ((range S.values).length, h) := by
  have hu := cmp_runlock_eq hs []
  simp only [List.append_nil] at hu
  have hl : len S.values = (range S.values).length := by
    cases S.values <;> rfl
  simp [Size, cmp_rlock_eq hs hw, cmp_getValues_eq (cmp_getElem?_set_same _ hs), hu, hl]

theorem cmp_Empty_eq [Comparable E] {h : Heap E} {s : Ptr} {S : Set E}
    (hs : h[s]? = some S) (hw : S.lock.writer = false) :
    Empty s h = some (decide ((range S.values).length = 0), h) := by
  have hu := cmp_runlock_eq hs []
  simp only [List.append_nil] at hu
  have hl : len S.values = (range S.values).length := by
    cases S.values <;> rfl
  simp [Empty, cmp_rlock_eq hs hw, cmp_getValues_eq (cmp_getElem?_set_same _ hs), hu, hl]

theorem cmp_String_eq [Comparable E] (sprintf : List E → String) {h : Heap E} {s : Ptr}
    {S : Set E} (hs : h[s]? = some S) (hw : S.lock.writer = false) :
    Set.String sprintf s h = some (sprintf (range S.values), h) := by
  have hu := cmp_runlock_eq hs []
  simp only [List.append_nil] at hu
  have hm : Members s (h.set s ⟨⟨S.lock.readers + 1, S.lock.writer⟩, S.values⟩)
      = some (range S.values, h.set s ⟨⟨S.lock.readers + 1, S.lock.writer⟩, S.values⟩) :=
    cmp_Members_eq (S := ⟨⟨S.lock.readers + 1, S.lock.writer⟩, S.values⟩)
      (cmp_getElem?_set_same _ hs) hw
  simp [Set.String, cmp_rlock_eq hs hw, hm, hu]

theorem storeAll_some [DecidableEq E] [Comparable E] (vals : List E)
    (hv : ∀ v ∈ vals, hashable v = true) (l : RWMutex) (m : Map E) :
    ∃ m1 : Map E, storeAll vals ⟨l, some m⟩ = some ⟨l, some m1⟩ ∧
      m1.keys = vals.foldl insertKey m.keys := by
  induction vals generalizing m with
  | nil => exact ⟨m, rfl, rfl⟩
  | cons v rest ih =>
    obtain ⟨m1, e1, k1⟩ := store_some m v (hv v (List.mem_cons_self v rest))
    obtain ⟨m2, e2, k2⟩ := ih (fun w hw => hv w (List.mem_cons_of_mem v hw)) m1
    refine ⟨m2, ?_, ?_⟩
    · rw [storeAll]
      simp only [e1, Option.some_bind]
      exact e2
    · rw [k2, k1, List.foldl_cons]

theorem New_some [DecidableEq E] [Comparable E] (vals : List E) (h : Heap E)
    (hv : ∀ v ∈ vals, hashable v = true) :
    ∃ m1 : Map E, New vals h = some (h.length, h ++ [⟨RWMutex.zero, some m1⟩]) ∧
      m1.keys = vals.foldl insertKey [] := by
  obtain ⟨m1, e1, k1⟩ := storeAll_some vals hv RWMutex.zero make
  refine ⟨m1, ?_, k1⟩
  simp [New, e1]

theorem New_nil_args [DecidableEq E] [Comparable E] (h : Heap E) :
    New ([] : List E) h = some (h.length, h ++ [⟨RWMutex.zero, some make⟩]) := rfl

/-- The loop of `Add`: with a map that is not nil and keys that can be hashed, each pass
rewrites the map of `s` and nothing else. -/
theorem forRange_store [DecidableEq E] [Comparable E] (s : Ptr) (vals : List E)
    (hv : ∀ v ∈ vals, hashable v = true) :
    ∀ (h : Heap E) (l : RWMutex) (m : Map E), h[s]? = some ⟨l, some m⟩ →
      ∃ m1 : Map E,
        forRange vals (fun v h => (getValues s h).bind fun m =>
          (store m v).bind fun m => setValues s (some m) h) h
          = some (h.set s ⟨l, some m1⟩) ∧
        m1.keys = vals.foldl insertKey m.keys := by
  induction vals with
  | nil =>
    intro h l m hs
    exact ⟨m, by simp [forRange, cmp_set_self hs], rfl⟩
  | cons v rest ih =>
    intro h l m hs
    obtain ⟨m1, e1, k1⟩ := store_some m v (hv v (List.mem_cons_self v rest))
    obtain ⟨m2, e2, k2⟩ := ih (fun w hw => hv w (List.mem_cons_of_mem v hw))
      (h.set s ⟨l, some m1⟩) l m1 (cmp_getElem?_set_same _ hs)
    refine ⟨m2, ?_, ?_⟩
    · rw [forRange]
      simp only [cmp_getValues_eq hs, e1, cmp_setValues_eq _ hs, Option.some_bind]
      rw [e2, List.set_set]
    · rw [k2, k1, List.foldl_cons]

theorem Add_some [DecidableEq E] [Comparable E] {h : Heap E} {s : Ptr} {S : Set E}
    {m : Map E} (hs : h[s]? = some S) (hl : S.lock = RWMutex.zero)
    (hm : S.values = some m) (vals : List E) (hv : ∀ v ∈ vals, hashable v = true) :
    ∃ m1 : Map E, Add s vals h = some (h.set s ⟨S.lock, some m1⟩) ∧
      m1.keys = vals.foldl insertKey m.keys := by
  have h1 : onLock RWMutex.Lock s h = some (h.set s ⟨⟨0, true⟩, some m⟩) := by
    rw [cmp_onLock_eq hs (l := ⟨0, true⟩) (by simp [RWMutex.Lock, hl, RWMutex.zero]), hm]
  obtain ⟨m1, e2, k1⟩ := forRange_store s vals hv _ _ _
    (cmp_getElem?_set_same ⟨⟨0, true⟩, some m⟩ hs)
  rw [List.set_set] at e2
  refine ⟨m1, ?_, k1⟩
  simp only [Add, h1, Option.bind_eq_bind, Option.some_bind]
  rw [e2, Option.some_bind,
    cmp_onLock_eq (cmp_getElem?_set_same _ hs) (l := ⟨0, false⟩) (by simp [RWMutex.Unlock]),
    List.set_set, hl]
  rfl

theorem Add_nil_args [DecidableEq E] [Comparable E] {h : Heap E} {s : Ptr} {S : Set E}
    (hs : h[s]? = some S) (hl : S.lock = RWMutex.zero) :
    Add s ([] : List E) h = some h := by
  have h1 : onLock RWMutex.Lock s h = some (h.set s ⟨⟨0, true⟩, S.values⟩) :=
    cmp_onLock_eq hs (by simp [RWMutex.Lock, hl, RWMutex.zero])
  simp only [Add, h1, forRange, Option.bind_eq_bind, Option.some_bind]
  rw [cmp_onLock_eq (cmp_getElem?_set_same _ hs) (l := ⟨0, false⟩)
    (by simp [RWMutex.Unlock]), List.set_set]
  congr 1
  have hS : (⟨⟨0, false⟩, S.values⟩ : Set E) = S := by
    cases S
    simp only [Set.mk.injEq, and_true]
    exact hl.symm
  rw [hS]
  exact cmp_set_self hs

/-- An assignment in the nil map of a zero-value `Set` panics: `Add` with a value to add
does not return. -/
theorem Add_nil_map [DecidableEq E] [Comparable E] {h : Heap E} {s : Ptr} {S : Set E}
    (hs : h[s]? = some S) (hl : S.lock = RWMutex.zero) (hm : S.values = none) (v : E)
    (rest : List E) : Add s (v :: rest) h = none := by
  have h1 : onLock RWMutex.Lock s h = some (h.set s ⟨⟨0, true⟩, none⟩) := by
    rw [cmp_onLock_eq hs (l := ⟨0, true⟩) (by simp [RWMutex.Lock, hl, RWMutex.zero]), hm]
  simp [Add, h1, forRange, cmp_getValues_eq (cmp_getElem?_set_same _ hs), store]

/-- The loop of `Delete`: with keys that can be hashed, each pass rewrites the map of `s`
and nothing else. -/
theorem forRange_delete [DecidableEq E] [Comparable E] (s : Ptr) (vals : List E)
    (hv : ∀ v ∈ vals, hashable v = true) :
    ∀ (h : Heap E) (l : RWMutex) (m : Option (Map E)), h[s]? = some ⟨l, m⟩ →
      ∃ m1 : Option (Map E),
        forRange vals (fun v h => (getValues s h).bind fun m =>
          (delete m v).bind fun m => setValues s m h) h
          = some (h.set s ⟨l, m1⟩) ∧
        range m1 = vals.foldl removeKey (range m) := by
  induction vals with
  | nil =>
    intro h l m hs
    exact ⟨m, by simp [forRange, cmp_set_self hs], rfl⟩
  | cons v rest ih =>
    intro h l m hs
    have hvv := hv v (List.mem_cons_self v rest)
    have hd : ∃ m1 : Option (Map E), delete m v = some m1 ∧
        range m1 = removeKey (range m) v := by
      cases m with
      | none =>
        refine ⟨none, delete_nil v hvv, ?_⟩
        simp [range, removeKey]
      | some m0 =>
        obtain ⟨m1, e1, k1⟩ := delete_some m0 v hvv
        exact ⟨some m1, e1, k1⟩
    obtain ⟨m1, e1, k1⟩ := hd
    obtain ⟨m2, e2, k2⟩ := ih (fun w hw => hv w (List.mem_cons_of_mem v hw))
      (h.set s ⟨l, m1⟩) l m1 (cmp_getElem?_set_same _ hs)
    refine ⟨m2, ?_, ?_⟩
    · rw [forRange]
      simp only [cmp_getValues_eq hs, e1, cmp_setValues_eq _ hs, Option.some_bind]
      rw [e2, List.set_set]
    · rw [k2, k1, List.foldl_cons]

theorem Delete_some [DecidableEq E] [Comparable E] {h : Heap E} {s : Ptr} {S : Set E}
    (hs : h[s]? = some S) (hl : S.lock = RWMutex.zero) (vals : List E)
    (hv : ∀ v ∈ vals, hashable v = true) :
    ∃ m1 : Option (Map E), Delete s vals h = some (h.set s ⟨S.lock, m1⟩) ∧
      range m1 = vals.foldl removeKey (range S.values) := by
  have h1 : onLock RWMutex.Lock s h = some (h.set s ⟨⟨0, true⟩, S.values⟩) :=
    cmp_onLock_eq hs (by simp [RWMutex.Lock, hl, RWMutex.zero])
  obtain ⟨m1, e2, k1⟩ := forRange_delete s vals hv _ _ _
    (cmp_getElem?_set_same ⟨⟨0, true⟩, S.values⟩ hs)
  rw [List.set_set] at e2
  refine ⟨m1, ?_, k1⟩
  simp only [Delete, h1, Option.bind_eq_bind, Option.some_bind]
  rw [e2, Option.some_bind,
    cmp_onLock_eq (cmp_getElem?_set_same _ hs) (l := ⟨0, false⟩) (by simp [RWMutex.Unlock]),
    List.set_set, hl]
  rfl

theorem Clear_some [Comparable E] {h : Heap E} {s : Ptr} {S : Set E}
    (hs : h[s]? = some S) (hl : S.lock = RWMutex.zero) :
    Clear s h = some (h.set s ⟨S.lock, some make⟩) := by
  have h1 : onLock RWMutex.Lock s h = some (h.set s ⟨⟨0, true⟩, S.values⟩) :=
    cmp_onLock_eq hs (by simp [RWMutex.Lock, hl, RWMutex.zero])
  have h2 := cmp_setValues_eq (some make) (cmp_getElem?_set_same ⟨⟨0, true⟩, S.values⟩ hs)
  rw [List.set_set] at h2
  simp only [Clear, h1, h2, Option.bind_eq_bind, Option.some_bind]
  rw [cmp_onLock_eq (cmp_getElem?_set_same _ hs) (l := ⟨0, false⟩)
    (by simp [RWMutex.Unlock]), List.set_set, hl]
  rfl

/-! ## Keys of any `comparable` type: the two-set methods -/

theorem range_hashed [Comparable E] (m : Option (Map E)) :
    ∀ v ∈ range m, hashable v = true := by
  cases m with
  | none => intro v hv; cases hv
  | some m => exact m.hashed

theorem cmp_two_rlocks [Comparable E] {h : Heap E} {a b : Ptr} {A B : Set E}
    (ha : h[a]? = some A) (hb : h[b]? = some B) (hwa : A.lock.writer = false)
    (hwb : B.lock.writer = false) :
    ∃ (h1 h2 : Heap E) (A2 B2 : Set E),
      onLock RWMutex.RLock a h = some h1 ∧ onLock RWMutex.RLock b h1 = some h2 ∧
      h2.length = h.length ∧
      h2[a]? = some A2 ∧ A2.values = A.values ∧ A2.lock.writer = false ∧
      h2[b]? = some B2 ∧ B2.values = B.values ∧ B2.lock.writer = false ∧
      ∀ t : Heap E, onLock RWMutex.RUnlock b (h2 ++ t) = some (h1 ++ t) ∧
        onLock RWMutex.RUnlock a (h1 ++ t) = some (h ++ t) := by
  obtain ⟨B1, hb1, hvb1, hwb1⟩ :=
    cmp_getElem?_set_other (U := ⟨⟨A.lock.readers + 1, A.lock.writer⟩, A.values⟩) ha hb
      rfl rfl
  have ha1 := cmp_getElem?_set_same ⟨⟨A.lock.readers + 1, A.lock.writer⟩, A.values⟩ ha
  obtain ⟨A2, ha2, hva2, hwa2⟩ :=
    cmp_getElem?_set_other (U := ⟨⟨B1.lock.readers + 1, B1.lock.writer⟩, B1.values⟩) hb1
      ha1 rfl rfl
  have hb2 := cmp_getElem?_set_same ⟨⟨B1.lock.readers + 1, B1.lock.writer⟩, B1.values⟩ hb1
  refine ⟨_, _, A2, _, cmp_rlock_eq ha hwa, cmp_rlock_eq hb1 (by rw [hwb1, hwb]), by simp,
    ha2, hva2, by rw [hwa2]; exact hwa, hb2, hvb1, by rw [← hwb]; exact hwb1,
    fun t => ⟨?_, ?_⟩⟩
  · exact cmp_runlock_eq hb1 t
  · exact cmp_runlock_eq ha t

theorem cmp_Add_fresh [DecidableEq E] [Comparable E] (h2 : Heap E) (m : Map E)
    (vals : List E) (hv : ∀ v ∈ vals, hashable v = true) :
    ∃ m1 : Map E, Add h2.length vals (h2 ++ [⟨RWMutex.zero, some m⟩])
        = some (h2 ++ [⟨RWMutex.zero, some m1⟩]) ∧
      m1.keys = vals.foldl insertKey m.keys := by
  obtain ⟨m1, e1, k1⟩ := Add_some (S := ⟨RWMutex.zero, some m⟩) (m := m)
    (List.getElem?_concat_length h2 _) rfl rfl vals hv
  refine ⟨m1, ?_, k1⟩
  rw [e1, cmp_set_length_append]

/-- The loop of `Intersection` and `Difference`: a body that only rewrites the map of the
fresh result leaves everything else as it was. -/
theorem forRange_fresh [Comparable E] (h2 : Heap E)
    (body : E → Heap E → Option (Heap E))
    (hbody : ∀ v : E, hashable v = true → ∀ m : Map E, ∃ m1 : Map E,
      body v (h2 ++ [⟨RWMutex.zero, some m⟩]) = some (h2 ++ [⟨RWMutex.zero, some m1⟩])) :
    ∀ ms : List E, (∀ v ∈ ms, hashable v = true) → ∀ m : Map E, ∃ m1 : Map E,
      forRange ms body (h2 ++ [⟨RWMutex.zero, some m⟩])
        = some (h2 ++ [⟨RWMutex.zero, some m1⟩]) := by
  intro ms
  induction ms with
  | nil => intro _ m; exact ⟨m, rfl⟩
  | cons v rest ih =>
    intro hv m
    obtain ⟨m1, e1⟩ := hbody v (hv v (List.mem_cons_self v rest)) m
    obtain ⟨m2, e2⟩ := ih (fun w hw => hv w (List.mem_cons_of_mem v hw)) m1
    exact ⟨m2, by rw [forRange, e1, Option.some_bind, e2]⟩

theorem Intersection_some [DecidableEq E] [Comparable E] {h : Heap E} {a b : Ptr}
    {A B : Set E} (ha : h[a]? = some A) (hb : h[b]? = some B)
    (hwa : A.lock.writer = false) (hwb : B.lock.writer = false) :
    ∃ m1 : Map E,
      Intersection a b h = some (h.length, h ++ [⟨RWMutex.zero, some m1⟩]) := by
  obtain ⟨h1, h2, A2, B2, e1, e2, hlen, ha2, hva, hwa2, hb2, hvb, hwb2, hun⟩ :=
    cmp_two_rlocks ha hb hwa hwb
  have hmem : Members a (h2 ++ [⟨RWMutex.zero, some make⟩])
      = some (range A.values, h2 ++ [⟨RWMutex.zero, some make⟩]) := by
    rw [← hva]
    exact cmp_Members_eq (cmp_getElem?_push ha2 _) hwa2
  obtain ⟨m1, hloop⟩ := forRange_fresh h2
    (fun v h => (Contains b v h).bind fun x =>
      if x.1 = true then Add h2.length [v] x.2 else pure x.2)
    (by
      intro v hv m
      simp only [cmp_Contains_eq (cmp_getElem?_push hb2 _) hwb2 v hv, Option.some_bind]
      split
      · obtain ⟨m1, e, -⟩ := cmp_Add_fresh h2 m [v]
          (fun w hw => by rw [List.mem_singleton] at hw; rw [hw]; exact hv)
        exact ⟨m1, e⟩
      · exact ⟨m, rfl⟩)
    (range A.values) (range_hashed A.values) make
  simp only [Intersection, e1, e2, New_nil_args, hmem, Option.bind_eq_bind,
    Option.some_bind]
  rw [hloop]
  simp only [Option.some_bind, (hun _).1, (hun _).2, hlen]
  exact ⟨m1, rfl⟩

theorem Difference_some [DecidableEq E] [Comparable E] {h : Heap E} {a b : Ptr}
    {A B : Set E} (ha : h[a]? = some A) (hb : h[b]? = some B)
    (hwa : A.lock.writer = false) (hwb : B.lock.writer = false) :
    ∃ m1 : Map E,
      Difference a b h = some (h.length, h ++ [⟨RWMutex.zero, some m1⟩]) := by
  obtain ⟨h1, h2, A2, B2, e1, e2, hlen, ha2, hva, hwa2, hb2, hvb, hwb2, hun⟩ :=
    cmp_two_rlocks ha hb hwa hwb
  have hmem : Members a (h2 ++ [⟨RWMutex.zero, some make⟩])
      = some (range A.values, h2 ++ [⟨RWMutex.zero, some make⟩]) := by
    rw [← hva]
    exact cmp_Members_eq (cmp_getElem?_push ha2 _) hwa2
  obtain ⟨m1, hloop⟩ := forRange_fresh h2
    (fun v h => (Contains b v h).bind fun x =>
      if (!x.1) = true then Add h2.length [v] x.2 else pure x.2)
    (by
      intro v hv m
      simp only [cmp_Contains_eq (cmp_getElem?_push hb2 _) hwb2 v hv, Option.some_bind]
      split
      · obtain ⟨m1, e, -⟩ := cmp_Add_fresh h2 m [v]
          (fun w hw => by rw [List.mem_singleton] at hw; rw [hw]; exact hv)
        exact ⟨m1, e⟩
      · exact ⟨m, rfl⟩)
    (range A.values) (range_hashed A.values) make
  simp only [Difference, e1, e2, New_nil_args, hmem, Option.bind_eq_bind,
    Option.some_bind]
  rw [hloop]
  simp only [Option.some_bind, (hun _).1, (hun _).2, hlen]
  exact ⟨m1, rfl⟩

theorem Union_some [DecidableEq E] [Comparable E] {h : Heap E} {a b : Ptr}
    {A B : Set E} (ha : h[a]? = some A) (hb : h[b]? = some B)
    (hwa : A.lock.writer = false) (hwb : B.lock.writer = false) :
    ∃ m1 : Map E, Union a b h = some (h.length, h ++ [⟨RWMutex.zero, some m1⟩]) := by
  obtain ⟨h1, h2, A2, B2, e1, e2, hlen, ha2, hva, hwa2, hb2, hvb, hwb2, hun⟩ :=
    cmp_two_rlocks ha hb hwa hwb
  have hmem : Members a h2 = some (range A.values, h2) := by
    rw [← hva]
    exact cmp_Members_eq ha2 hwa2
  obtain ⟨m0, en, -⟩ := New_some (range A.values) h2 (range_hashed A.values)
  have hmem2 : Members b (h2 ++ [⟨RWMutex.zero, some m0⟩])
      = some (range B.values, h2 ++ [⟨RWMutex.zero, some m0⟩]) := by
    rw [← hvb]
    exact cmp_Members_eq (cmp_getElem?_push hb2 _) hwb2
  obtain ⟨m1, ea, -⟩ := cmp_Add_fresh h2 m0 (range B.values) (range_hashed B.values)
  simp only [Union, e1, e2, hmem, en, hmem2, ea, Option.bind_eq_bind, Option.some_bind,
    (hun _).1, (hun _).2]
  rw [hlen]
  exact ⟨m1, rfl⟩

theorem Disjoint_some [DecidableEq E] [Comparable E] {h : Heap E} {a b : Ptr}
    {A B : Set E} (ha : h[a]? = some A) (hb : h[b]? = some B)
    (hwa : A.lock.writer = false) (hwb : B.lock.writer = false) :
    ∃ (r : Bool) (m1 : Map E),
      Disjoint a b h = some (r, h ++ [⟨RWMutex.zero, some m1⟩]) := by
  obtain ⟨h1, h2, A2, B2, e1, e2, hlen, ha2, hva, hwa2, hb2, hvb, hwb2, hun⟩ :=
    cmp_two_rlocks ha hb hwa hwb
  obtain ⟨m1, hi⟩ := Intersection_some ha2 hb2 hwa2 hwb2
  have he := cmp_Empty_eq (List.getElem?_concat_length h2 (⟨RWMutex.zero, some m1⟩ : Set E))
    rfl
  simp only [Disjoint, e1, e2, hi, he, Option.bind_eq_bind, Option.some_bind, (hun _).1,
    (hun _).2]
  exact ⟨_, m1, rfl⟩

/-! ## Keys of any `comparable` type: the claims -/

/-- C1, counterexample: on a `Set[float64]` the value NaN appears in `v = [NaN]` and
`New(v...).Contains(NaN)` returns false; on a `Set[any]` the call `New([]int{1})`, with a
value that cannot be hashed, does not return. -/
theorem New_Contains_counterexample :
    Float64.nan ∈ [Float64.nan] ∧
    ((New [Float64.nan] ([] : Heap Float64)).bind fun r =>
      (Contains r.1 Float64.nan r.2).map fun c => c.1) = some false ∧
    New [Any.slice [1]] ([] : Heap Any) = none :=
  ⟨List.mem_singleton.mpr rfl, rfl, rfl⟩

/-- C1, amended: for every finite sequence `v` (empty or with repeats) of values that can
be hashed and every such value `x`, the call `New(v...).Contains(x)` returns, and it
returns true if and only if `x` appears in `v` and `x` is equal to itself. -/
theorem New_Contains_selfEq [DecidableEq E] [Comparable E] (h : Heap E) (v : List E)
    (x : E) (hv : ∀ y ∈ v, hashable y = true) (hx : hashable x = true) :
    ∃ (s : Ptr) (h1 : Heap E), New v h = some (s, h1) ∧
      Contains s x h1 = some (selfEq x && decide (x ∈ v), h1) := by
  obtain ⟨m1, e1, k1⟩ := New_some v h hv
  refine ⟨_, _, e1, ?_⟩
  rw [cmp_Contains_eq (List.getElem?_concat_length h _) rfl x hx]
  have hmem : decide (x ∈ range (some m1)) = decide (x ∈ v) := by
    rw [decide_eq_decide]
    show x ∈ m1.keys ↔ x ∈ v
    rw [k1, mem_foldl_insertKey]
    simp
  rw [hmem]

theorem New_Contains_selfEq_witness :
    (∀ y ∈ [Float64.num 1, Float64.nan, Float64.num 1], hashable y = true) ∧
    ∃ (s : Ptr) (h1 : Heap Float64),
      New [Float64.num 1, Float64.nan, Float64.num 1] [] = some (s, h1) ∧
      Contains s (Float64.num 1) h1
        = some (selfEq (Float64.num 1) &&
            decide (Float64.num 1 ∈ [Float64.num 1, Float64.nan, Float64.num 1]), h1) :=
  ⟨fun _ _ => rfl,
    New_Contains_selfEq [] [Float64.num 1, Float64.nan, Float64.num 1] (Float64.num 1)
      (fun _ _ => rfl) rfl⟩

/-- C6, counterexample: on a `Set[float64]`, after `Add(NaN)` the value NaN, which appears
in `vals`, is not contained; `Add(1)` on the zero value of `Set[int]`, whose map is nil,
does not return; and `Add([]int{1})` on a `Set[any]` does not return. -/
theorem Add_Contains_counterexample :
    Float64.nan ∈ [Float64.nan] ∧
    ((New [] ([] : Heap Float64)).bind fun r => (Add r.1 [Float64.nan] r.2).bind fun h1 =>
      (Contains r.1 Float64.nan h1).map fun c => c.1) = some false ∧
    Add 0 [(1 : Int)] [⟨RWMutex.zero, none⟩] = none ∧
    ((New [] ([] : Heap Any)).bind fun r => Add r.1 [Any.slice [1]] r.2) = none :=
  ⟨List.mem_singleton.mpr rfl, rfl, rfl, rfl⟩

/-- C6, amended: for every unlocked set `s` whose map is not nil, every finite sequence
`vals` of values that can be hashed and every such value `x`, `s.Add(vals...)` returns, and
afterwards `s.Contains(x)` is true if and only if it was true before the call or `x`
appears in `vals` and is equal to itself; and `New(1,2)` after `Add(3)` has exactly the
members 1, 2, 3. -/
theorem Add_Contains_selfEq [DecidableEq E] [Comparable E] :
    (∀ (h : Heap E) (s : Ptr) (S : Set E) (m : Map E) (vals : List E), h[s]? = some S →
      S.lock = RWMutex.zero → S.values = some m → (∀ y ∈ vals, hashable y = true) →
      ∃ h1 : Heap E, Add s vals h = some h1 ∧
        ∀ x : E, hashable x = true → ∃ c : Bool, Contains s x h = some (c, h) ∧
          Contains s x h1 = some (c || (selfEq x && decide (x ∈ vals)), h1)) ∧
    ∃ ms : List Int, (do
        let (s, h) ← New [1, 2] ([] : Heap Int)
        let h ← Add s [3] h
        let (ms, _) ← Members s h
        pure ms) = some ms ∧ ms.Perm [1, 2, 3] := by
  refine ⟨?_, [1, 2, 3], rfl, by decide⟩
  intro h s S m vals hs hl hm hv
  have hw : S.lock.writer = false := by rw [hl]; rfl
  obtain ⟨m1, e1, k1⟩ := Add_some hs hl hm vals hv
  refine ⟨_, e1, fun x hx => ⟨_, cmp_Contains_eq hs hw x hx, ?_⟩⟩
  rw [cmp_Contains_eq (cmp_getElem?_set_same (⟨S.lock, some m1⟩ : Set E) hs) hw x hx, hm]
  congr 2
  show (selfEq x && decide (x ∈ m1.keys))
    = (selfEq x && decide (x ∈ m.keys) || selfEq x && decide (x ∈ vals))
  rw [← Bool.and_or_distrib_left]
  congr 1
  rw [← Bool.decide_or, decide_eq_decide, k1, mem_foldl_insertKey]

theorem Add_Contains_selfEq_witness :
    ∃ h1 : Heap Float64,
      Add 0 [Float64.nan, Float64.num 3] [⟨RWMutex.zero, some make⟩] = some h1 ∧
      ∀ x : Float64, hashable x = true → ∃ c : Bool,
        Contains 0 x [⟨RWMutex.zero, some make⟩] = some (c, [⟨RWMutex.zero, some make⟩]) ∧
        Contains 0 x h1
          = some (c || (selfEq x && decide (x ∈ [Float64.nan, Float64.num 3])), h1) :=
  Add_Contains_selfEq.1 [⟨RWMutex.zero, some make⟩] 0 ⟨RWMutex.zero, some make⟩ make
    [Float64.nan, Float64.num 3] (by rfl) (by rfl) (by rfl) (fun _ _ => rfl)

/-- C7, counterexample: on a `Set[float64]`, `Add(NaN); Add(NaN)` leaves `Size() == 2` and a
single `Add(NaN)` leaves `Size() == 1`; `Add(1)` on the zero value of `Set[int]`, whose map
is nil, does not return; and `Add([]int{1})` on a `Set[any]` does not return. -/
theorem Add_idempotent_counterexample :
    ((New [] ([] : Heap Float64)).bind fun r => (Add r.1 [Float64.nan] r.2).bind fun h1 =>
      (Add r.1 [Float64.nan] h1).bind fun h2 => (Size r.1 h2).map fun n => n.1) = some 2 ∧
    ((New [] ([] : Heap Float64)).bind fun r => (Add r.1 [Float64.nan] r.2).bind fun h1 =>
      (Size r.1 h1).map fun n => n.1) = some 1 ∧
    Add 0 [(1 : Int)] [⟨RWMutex.zero, none⟩] = none ∧
    ((New [] ([] : Heap Any)).bind fun r => Add r.1 [Any.slice [1]] r.2) = none :=
  ⟨rfl, rfl, rfl, rfl⟩

/-- C7, amended: `Add` is idempotent for a value that is equal to itself: for every
unlocked set `s` whose map is not nil and every value `x` that can be hashed and is equal
to itself, the store after `s.Add(x); s.Add(x)` is the store after a single `s.Add(x)` (so
every `Contains` and `Size` answers the same), and `Add(x)` on a set that already contains
`x` leaves the store unchanged. -/
theorem Add_idempotent_selfEq [DecidableEq E] [Comparable E] (h : Heap E) (s : Ptr)
    (S : Set E) (m : Map E) (x : E) (hs : h[s]? = some S) (hl : S.lock = RWMutex.zero)
    (hm : S.values = some m) (hx : hashable x = true) (hxx : selfEq x = true) :
    ∃ h1 : Heap E, Add s [x] h = some h1 ∧ (Add s [x] h).bind (Add s [x]) = some h1 ∧
      (∀ y : E, ((Add s [x] h).bind (Add s [x])).bind (Contains s y)
        = (Add s [x] h).bind (Contains s y)) ∧
      ((Add s [x] h).bind (Add s [x])).bind (Size s) = (Add s [x] h).bind (Size s) ∧
      (Contains s x h = some (true, h) → h1 = h) := by
  have hvx : ∀ y ∈ [x], hashable y = true := fun y hy => by
    rw [List.mem_singleton] at hy
    rw [hy]
    exact hx
  obtain ⟨m1, e1, k1⟩ := Add_some hs hl hm [x] hvx
  obtain ⟨m2, e2, k2⟩ := Add_some (S := ⟨S.lock, some m1⟩) (m := m1)
    (cmp_getElem?_set_same _ hs) hl rfl [x] hvx
  simp only [List.foldl_cons, List.foldl_nil] at k1 k2
  have hm21 : m2 = m1 := by
    apply cmp_ext_keys
    rw [k2]
    apply insertKey_of_mem _ _ hxx
    rw [k1, mem_insertKey]
    exact Or.inr rfl
  rw [hm21, List.set_set] at e2
  have e12 : (Add s [x] h).bind (Add s [x]) = some (h.set s ⟨S.lock, some m1⟩) := by
    rw [e1, Option.some_bind]
    exact e2
  refine ⟨_, e1, e12, fun y => by rw [e12, e1], by rw [e12, e1], ?_⟩
  intro hc
  rw [cmp_Contains_eq hs (by rw [hl]; rfl) x hx, hm] at hc
  simp only [Option.some.injEq, Prod.mk.injEq, and_true, Bool.and_eq_true,
    decide_eq_true_eq] at hc
  have hm1 : m1 = m := by
    apply cmp_ext_keys
    rw [k1]
    exact insertKey_of_mem _ _ hxx hc.2
  rw [hm1, ← hm]
  exact cmp_set_self hs

theorem Add_idempotent_selfEq_witness :
    ∃ h1 : Heap Float64,
      Add 0 [Float64.num 2] [⟨RWMutex.zero, some make⟩] = some h1 ∧
      (Add 0 [Float64.num 2] [⟨RWMutex.zero, some make⟩]).bind (Add 0 [Float64.num 2])
        = some h1 ∧
      (∀ y : Float64,
        ((Add 0 [Float64.num 2] [⟨RWMutex.zero, some make⟩]).bind
          (Add 0 [Float64.num 2])).bind (Contains 0 y)
        = (Add 0 [Float64.num 2] [⟨RWMutex.zero, some make⟩]).bind (Contains 0 y)) ∧
      ((Add 0 [Float64.num 2] [⟨RWMutex.zero, some make⟩]).bind
          (Add 0 [Float64.num 2])).bind (Size 0)
        = (Add 0 [Float64.num 2] [⟨RWMutex.zero, some make⟩]).bind (Size 0) ∧
      (Contains 0 (Float64.num 2) [⟨RWMutex.zero, some make⟩]
          = some (true, [⟨RWMutex.zero, some make⟩]) →
        h1 = [⟨RWMutex.zero, some make⟩]) :=
  Add_idempotent_selfEq [⟨RWMutex.zero, some make⟩] 0 ⟨RWMutex.zero, some make⟩ make
    (Float64.num 2) (by rfl) (by rfl) (by rfl) (by rfl) (by rfl)

/-- C11, counterexample: on a `Set[float64]` built by `New(NaN, NaN)`, `Members()` lists
NaN twice although `Contains(NaN)` is false; on a `Set[any]`, `Contains([]int{1})` does
not return. -/
theorem Members_snapshot_counterexample :
    ((New [Float64.nan, Float64.nan] ([] : Heap Float64)).bind fun r =>
      (Members r.1 r.2).map fun ms => ms.1) = some [Float64.nan, Float64.nan] ∧
    ((New [Float64.nan, Float64.nan] ([] : Heap Float64)).bind fun r =>
      (Contains r.1 Float64.nan r.2).map fun c => c.1) = some false ∧
    ((New [Any.int 1] ([] : Heap Any)).bind fun r => Contains r.1 (Any.slice [1]) r.2)
      = none :=
  ⟨rfl, rfl, rfl⟩

/-- C11, amended: for every set no writer holds, `Members()` returns, leaves the store as
it was, and the slice it returns holds the current keys: a value `x` that can be hashed
and is equal to itself occurs in it if and only if `s.Contains(x)` (for a value that is not
equal to itself `Contains` is false), no value that is equal to itself occurs twice, and
its length is `s.Size()`. -/
theorem Members_snapshot_selfEq [DecidableEq E] [Comparable E] (h : Heap E) (s : Ptr)
    (S : Set E) (hs : h[s]? = some S) (hw : S.lock.writer = false) :
    ∃ ms : List E, Members s h = some (ms, h) ∧
      (∀ x : E, hashable x = true →
        Contains s x h = some (selfEq x && decide (x ∈ ms), h)) ∧
      (ms.filter selfEq).Nodup ∧ Size s h = some (ms.length, h) := by
  refine ⟨range S.values, cmp_Members_eq hs hw, fun x hx => cmp_Contains_eq hs hw x hx, ?_,
    cmp_Size_eq hs hw⟩
  cases S.values with
  | none => exact List.nodup_nil
  | some m => exact m.nodup

theorem Members_snapshot_selfEq_witness :
    ∃ ms : List Float64,
      Members 0
        ([⟨RWMutex.zero,
          some ⟨[Float64.nan, Float64.num 1, Float64.nan], by decide, by decide⟩⟩] :
          Heap Float64)
        = some (ms,
        ([⟨RWMutex.zero,
          some ⟨[Float64.nan, Float64.num 1, Float64.nan], by decide, by decide⟩⟩] :
          Heap Float64)) ∧
      (∀ x : Float64, hashable x = true →
        Contains 0 x
        ([⟨RWMutex.zero,
          some ⟨[Float64.nan, Float64.num 1, Float64.nan], by decide, by decide⟩⟩] :
          Heap Float64)
        = some (selfEq x && decide (x ∈ ms),
        ([⟨RWMutex.zero,
          some ⟨[Float64.nan, Float64.num 1, Float64.nan], by decide, by decide⟩⟩] :
          Heap Float64))) ∧
      (ms.filter selfEq).Nodup ∧
      Size 0
        ([⟨RWMutex.zero,
          some ⟨[Float64.nan, Float64.num 1, Float64.nan], by decide, by decide⟩⟩] :
          Heap Float64)
        = some (ms.length,
        ([⟨RWMutex.zero,
          some ⟨[Float64.nan, Float64.num 1, Float64.nan], by decide, by decide⟩⟩] :
          Heap Float64)) :=
  Members_snapshot_selfEq _ 0 _ (by rfl) (by rfl)

/-- A map all of whose keys are equal to themselves has as many keys as the sequence they
were stored from has distinct values. -/
theorem length_keys_selfEq [DecidableEq E] [Comparable E] (m : Map E) (v : List E)
    (hk : ∀ x, x ∈ m.keys ↔ x ∈ v) (hv : ∀ y ∈ v, selfEq y = true) :
    m.keys.length = v.dedup.length := by
  have hnd : m.keys.Nodup := by
    have hf : m.keys.filter selfEq = m.keys :=
      List.filter_eq_self.mpr fun a ha => hv a ((hk a).mp ha)
    rw [← hf]
    exact m.nodup
  rw [← List.toFinset_card_of_nodup hnd, ← List.card_toFinset]
  congr 1
  ext x
  simp [hk x]

theorem foldl_insertKey_eq_nil [DecidableEq E] [Comparable E] (v : List E) :
    v.foldl insertKey [] = [] ↔ v = [] := by
  constructor
  · intro hnil
    apply List.eq_nil_iff_forall_not_mem.mpr
    intro x hx
    have hmem : x ∈ v.foldl insertKey [] := (mem_foldl_insertKey v [] x).mpr (Or.inr hx)
    rw [hnil] at hmem
    cases hmem
  · intro hv
    rw [hv]
    rfl

/-- C12, counterexample: on a `Set[float64]`, `New(NaN).Size()` is 1 and
`New(NaN, NaN).Size()` is 2, although the two sequences hold the same value and the second
has one distinct value; on a `Set[any]`, `New([]int{1})` does not return. -/
theorem New_duplicates_counterexample :
    ((New [Float64.nan] ([] : Heap Float64)).bind fun r =>
      (Size r.1 r.2).map fun n => n.1) = some 1 ∧
    ((New [Float64.nan, Float64.nan] ([] : Heap Float64)).bind fun r =>
      (Size r.1 r.2).map fun n => n.1) = some 2 ∧
    (∀ x, x ∈ [Float64.nan, Float64.nan] ↔ x ∈ [Float64.nan]) ∧
    [Float64.nan, Float64.nan].dedup.length = 1 ∧
    New [Any.slice [1]] ([] : Heap Any) = none :=
  ⟨rfl, rfl, fun x => by simp, by decide, rfl⟩

/-- C12, amended: for every finite sequence `v` of values that can be hashed, `New(v...)`
returns, `New(v...).Empty()` is true if and only if `v` is empty, and the store after
`New(v...)` is the store after `New()` followed by `Add(v...)`; when every value of `v` is
equal to itself, `New(v...).Size()` is the number of distinct values in `v`, and for a
sequence `w` with the same values as `v`, in any order and with any repetition, `New(w...)`
answers every `Contains` and `Size` as `New(v...)` does. -/
theorem New_duplicates_collapse_selfEq [DecidableEq E] [Comparable E] (h : Heap E)
    (v : List E) (hv : ∀ y ∈ v, hashable y = true) :
    ∃ (s : Ptr) (h1 : Heap E), New v h = some (s, h1) ∧
      Empty s h1 = some (decide (v = []), h1) ∧
      (∃ h0 : Heap E, New ([] : List E) h = some (s, h0) ∧ Add s v h0 = some h1) ∧
      ((∀ y ∈ v, selfEq y = true) →
        Size s h1 = some (v.dedup.length, h1) ∧
        ∀ w : List E, (∀ x, x ∈ w ↔ x ∈ v) →
          ∃ (t : Ptr) (k1 : Heap E), New w h = some (t, k1) ∧
            (∀ x : E, hashable x = true → ∃ c : Bool,
              Contains s x h1 = some (c, h1) ∧ Contains t x k1 = some (c, k1)) ∧
            ∃ n : Nat, Size s h1 = some (n, h1) ∧ Size t k1 = some (n, k1)) := by
  obtain ⟨m1, e1, k1⟩ := New_some v h hv
  have hs1 := List.getElem?_concat_length h (⟨RWMutex.zero, some m1⟩ : Set E)
  have hmem1 : ∀ x, x ∈ m1.keys ↔ x ∈ v := fun x => by
    rw [k1, mem_foldl_insertKey]
    simp
  refine ⟨_, _, e1, ?_, ?_, ?_⟩
  · rw [cmp_Empty_eq hs1 rfl]
    have hdec : decide ((range (some m1)).length = 0) = decide (v = []) := by
      rw [decide_eq_decide, List.length_eq_zero]
      show m1.keys = [] ↔ v = []
      rw [k1]
      exact foldl_insertKey_eq_nil v
    rw [hdec]
  · refine ⟨_, New_nil_args h, ?_⟩
    obtain ⟨m2, e2, k2⟩ := cmp_Add_fresh h make v hv
    rw [e2]
    have hm : m2 = m1 := cmp_ext_keys (by rw [k2, k1]; rfl)
    rw [hm]
  · intro hself
    have hsize : Size h.length (h ++ [⟨RWMutex.zero, some m1⟩])
        = some (v.dedup.length, h ++ [⟨RWMutex.zero, some m1⟩]) := by
      rw [cmp_Size_eq hs1 rfl]
      have hl : (range (some m1)).length = v.dedup.length :=
        length_keys_selfEq m1 v hmem1 hself
      rw [hl]
    refine ⟨hsize, ?_⟩
    intro w hwv
    have hw : ∀ y ∈ w, hashable y = true := fun y hy => hv y ((hwv y).mp hy)
    have hwself : ∀ y ∈ w, selfEq y = true := fun y hy => hself y ((hwv y).mp hy)
    obtain ⟨m2, e2, k2⟩ := New_some w h hw
    have hs2 := List.getElem?_concat_length h (⟨RWMutex.zero, some m2⟩ : Set E)
    have hmem2 : ∀ x, x ∈ m2.keys ↔ x ∈ w := fun x => by
      rw [k2, mem_foldl_insertKey]
      simp
    have hvw : w.dedup.length = v.dedup.length := by
      rw [← List.card_toFinset, ← List.card_toFinset]
      congr 1
      ext x
      simp [hwv x]
    refine ⟨_, _, e2, fun x hx => ⟨_, cmp_Contains_eq hs1 rfl x hx, ?_⟩,
      v.dedup.length, hsize, ?_⟩
    · rw [cmp_Contains_eq hs2 rfl x hx]
      have hd : decide (x ∈ range (some m2)) = decide (x ∈ range (some m1)) := by
        rw [decide_eq_decide]
        show x ∈ m2.keys ↔ x ∈ m1.keys
        rw [hmem2, hmem1, hwv]
      rw [hd]
    · rw [cmp_Size_eq hs2 rfl]
      have hl : (range (some m2)).length = w.dedup.length :=
        length_keys_selfEq m2 w hmem2 hwself
      rw [hl, hvw]

theorem New_duplicates_collapse_selfEq_witness :
    (∀ y ∈ [Float64.num 1, Float64.num 2, Float64.num 2], hashable y = true) ∧
    (∀ y ∈ [Float64.num 1, Float64.num 2, Float64.num 2], selfEq y = true) ∧
    (∀ x, x ∈ [Float64.num 2, Float64.num 1] ↔
      x ∈ [Float64.num 1, Float64.num 2, Float64.num 2]) ∧
    ∃ (s : Ptr) (h1 : Heap Float64) (t : Ptr) (k1 : Heap Float64),
      New [Float64.num 1, Float64.num 2, Float64.num 2] [] = some (s, h1) ∧
      Size s h1 = some (2, h1) ∧
      New [Float64.num 2, Float64.num 1] [] = some (t, k1) ∧
      ∃ n : Nat, Size s h1 = some (n, h1) ∧ Size t k1 = some (n, k1) := by
  have hsame : ∀ x, x ∈ [Float64.num 2, Float64.num 1] ↔
      x ∈ [Float64.num 1, Float64.num 2, Float64.num 2] := by
    intro x
    simp only [List.mem_cons, List.mem_singleton, List.not_mem_nil, or_false]
    tauto
  have hself : ∀ y ∈ [Float64.num 1, Float64.num 2, Float64.num 2], selfEq y = true := by
    decide
  obtain ⟨s, h1, e, -, -, hsz⟩ :=
    New_duplicates_collapse_selfEq [] [Float64.num 1, Float64.num 2, Float64.num 2]
      (fun _ _ => rfl)
  obtain ⟨hsize, hw⟩ := hsz hself
  obtain ⟨t, k1, e2, -, hn⟩ := hw [Float64.num 2, Float64.num 1] hsame
  exact ⟨fun _ _ => rfl, hself, hsame, s, h1, t, k1, e, hsize, e2, hn⟩

/-- C15, counterexample: `Add(1)` on the zero value of `Set[int]`, whose map is nil, does
not return; on a `Set[any]`, `New([]int{1})` does not return, and neither does
`Contains([]int{1})` on the set built by `New(1)`. -/
theorem operations_total_counterexample :
    Add 0 [(1 : Int)] [⟨RWMutex.zero, none⟩] = none ∧
    New [Any.slice [1]] ([] : Heap Any) = none ∧
    ((New [Any.int 1] ([] : Heap Any)).bind fun r => Contains r.1 (Any.slice [1]) r.2)
      = none :=
  ⟨rfl, rfl, rfl⟩

/-- C15, amended: in a single-threaded execution every operation runs to completion on
allocated, unlocked sets `s` and `s2` (the same object or not, zero values included) with
arguments that can be hashed: `New`, `Delete`, `Clear`, `Contains`, `Size`, `Empty`,
`Members`, `String`, `Union`, `Intersection`, `Difference` and `Disjoint` return a result,
also with the receiver as the other operand and with an empty argument list; `Add` returns
when the map of `s` is not nil or no value is given. -/
theorem operations_total_hashable [DecidableEq E] [Comparable E]
    (sprintf : List E → String) (h : Heap E) (s s2 : Ptr) (S S2 : Set E)
    (hs : h[s]? = some S) (hs2 : h[s2]? = some S2) (hl : S.lock = RWMutex.zero)
    (hl2 : S2.lock = RWMutex.zero) (vals : List E) (v : E)
    (hvals : ∀ y ∈ vals, hashable y = true) (hv : hashable v = true) :
    (New vals h).isSome = true ∧ (New ([] : List E) h).isSome = true ∧
    (S.values ≠ none → (Add s vals h).isSome = true) ∧ (Add s [] h).isSome = true ∧
    (Delete s vals h).isSome = true ∧ (Delete s [] h).isSome = true ∧
    (Clear s h).isSome = true ∧ (Contains s v h).isSome = true ∧
    (Size s h).isSome = true ∧ (Empty s h).isSome = true ∧
    (Members s h).isSome = true ∧ (Set.String sprintf s h).isSome = true ∧
    (Union s s2 h).isSome = true ∧ (Intersection s s2 h).isSome = true ∧
    (Difference s s2 h).isSome = true ∧ (Disjoint s s2 h).isSome = true ∧
    (Union s s h).isSome = true ∧ (Intersection s s h).isSome = true ∧
    (Difference s s h).isSome = true ∧ (Disjoint s s h).isSome = true := by
  have hw : S.lock.writer = false := by rw [hl]; rfl
  have hw2 : S2.lock.writer = false := by rw [hl2]; rfl
  have hnil : ∀ y ∈ ([] : List E), hashable y = true := fun _ hy => nomatch hy
  refine ⟨?_, ?_, ?_, ?_, ?_, ?_, ?_, ?_, ?_, ?_, ?_, ?_, ?_, ?_, ?_, ?_, ?_, ?_, ?_, ?_⟩
  · obtain ⟨m1, e, -⟩ := New_some vals h hvals
    rw [e]; rfl
  · rw [New_nil_args]; rfl
  · intro hne
    obtain ⟨m, hm⟩ := Option.ne_none_iff_exists'.mp hne
    obtain ⟨m1, e, -⟩ := Add_some hs hl hm vals hvals
    rw [e]; rfl
  · rw [Add_nil_args hs hl]; rfl
  · obtain ⟨m1, e, -⟩ := Delete_some hs hl vals hvals
    rw [e]; rfl
  · obtain ⟨m1, e, -⟩ := Delete_some hs hl [] hnil
    rw [e]; rfl
  · rw [Clear_some hs hl]; rfl
  · rw [cmp_Contains_eq hs hw v hv]; rfl
  · rw [cmp_Size_eq hs hw]; rfl
  · rw [cmp_Empty_eq hs hw]; rfl
  · rw [cmp_Members_eq hs hw]; rfl
  · rw [cmp_String_eq sprintf hs hw]; rfl
  · obtain ⟨m1, e⟩ := Union_some hs hs2 hw hw2
    rw [e]; rfl
  · obtain ⟨m1, e⟩ := Intersection_some hs hs2 hw hw2
    rw [e]; rfl
  · obtain ⟨m1, e⟩ := Difference_some hs hs2 hw hw2
    rw [e]; rfl
  · obtain ⟨r, m1, e⟩ := Disjoint_some hs hs2 hw hw2
    rw [e]; rfl
  · obtain ⟨m1, e⟩ := Union_some hs hs hw hw
    rw [e]; rfl
  · obtain ⟨m1, e⟩ := Intersection_some hs hs hw hw
    rw [e]; rfl
  · obtain ⟨m1, e⟩ := Difference_some hs hs hw hw
    rw [e]; rfl
  · obtain ⟨r, m1, e⟩ := Disjoint_some hs hs hw hw
    rw [e]; rfl

theorem operations_total_hashable_witness :
    (Add 0 [Any.int 3, Any.int 1]
      ([⟨RWMutex.zero, some make⟩, ⟨RWMutex.zero, none⟩] : Heap Any)).isSome = true ∧
    (Delete 1 [Any.int 3, Any.int 1]
      ([⟨RWMutex.zero, some make⟩, ⟨RWMutex.zero, none⟩] : Heap Any)).isSome = true ∧
    (Contains 1 (Any.int 7)
      ([⟨RWMutex.zero, some make⟩, ⟨RWMutex.zero, none⟩] : Heap Any)).isSome = true ∧
    (Union 0 1
      ([⟨RWMutex.zero, some make⟩, ⟨RWMutex.zero, none⟩] : Heap Any)).isSome = true ∧
    (Difference 1 1
      ([⟨RWMutex.zero, some make⟩, ⟨RWMutex.zero, none⟩] : Heap Any)).isSome = true ∧
    (Disjoint 0 0
      ([⟨RWMutex.zero, some make⟩, ⟨RWMutex.zero, none⟩] : Heap Any)).isSome = true := by
  obtain ⟨-, -, hadd, -, -, -, -, -, -, -, -, -, huni, -, -, -, -, -, -, hdis⟩ :=
    operations_total_hashable (fun _ => "")
      ([⟨RWMutex.zero, some make⟩, ⟨RWMutex.zero, none⟩] : Heap Any)
      0 1 ⟨RWMutex.zero, some make⟩ ⟨RWMutex.zero, none⟩ (by rfl) (by rfl) (by rfl)
      (by rfl) [Any.int 3, Any.int 1] (Any.int 7) (by decide) (by rfl)
  obtain ⟨-, -, -, -, hdel, -, -, hcon, -, -, -, -, -, -, -, -, -, -, hdif, -⟩ :=
    operations_total_hashable (fun _ => "")
      ([⟨RWMutex.zero, some make⟩, ⟨RWMutex.zero, none⟩] : Heap Any)
      1 0 ⟨RWMutex.zero, none⟩ ⟨RWMutex.zero, some make⟩ (by rfl) (by rfl) (by rfl)
      (by rfl) [Any.int 3, Any.int 1] (Any.int 7) (by decide) (by rfl)
  exact ⟨hadd (by simp), hdel, hcon, huni, hdif, hdis⟩

end Comparable

end GoSet
